import Mathlib

/-!
# vault-ton-signer: key-manager store and signing engine

A shallow embedding of `internal/usecase` (the Vault plugin handlers
`createKeyManager`, `listKeyManagers`, `readKeyManager`, `deleteKeyManager`,
`signHash`, `transferTon`, `transferJetton`) together with the library
functions they call (`encoding/hex`, `encoding/base64`, `regexp`, the storage
adapter), followed by theorems about the handlers.

Conventions
* a byte is a `Fin 256`; a byte slice is a `List Byte`;
* a Go `string` is a Lean `String`, read character by character;
* a handler returns an `Outcome`: a response, a returned `error`, or a panic;
* the storage adapter is passed and returned explicitly.
-/

namespace TonSigner

deriving instance DecidableEq for Except

/-! ## Bytes -/

/-- One octet. -/
abbrev Byte := Fin 256

/-- A Go byte slice. -/
abbrev Bytes := List Byte

/-- Truncation of a natural number to a byte, as Go's `byte(x)` conversion. -/
def toByte (n : Nat) : Byte := ⟨n % 256, Nat.mod_lt n (by decide)⟩

/-! ## encoding/hex -/

namespace hex

/-- Lower-case table of `encoding/hex`: `const hextable = "0123456789abcdef"`. -/
def hextable : List Char :=
  ['0', '1', '2', '3', '4', '5', '6', '7', '8', '9', 'a', 'b', 'c', 'd', 'e', 'f']

/-- Errors of `encoding/hex`: `ErrLength` and `InvalidByteError`. -/
inductive HexError where
  | ErrLength
  | InvalidByteError (c : Char)
  deriving DecidableEq, Repr

/-- Go `hex.Encode`: each byte `v` gives `hextable[v>>4]`, `hextable[v&0x0f]`. -/
def encode : Bytes → List Char
  | [] => []
  | v :: rest => hextable.getD (v.val / 16) '0' :: hextable.getD (v.val % 16) '0' :: encode rest

/-- Go `hex.EncodeToString`. -/
def EncodeToString (src : Bytes) : String := String.mk (encode src)

/-- Go `reverseHexTable` lookup: the value of a hexadecimal digit, either case;
`none` stands for the table's `0xff` entries. -/
def fromHexChar (c : Char) : Option Nat :=
  if '0' ≤ c ∧ c ≤ '9' then some (c.toNat - '0'.toNat)
  else if 'a' ≤ c ∧ c ≤ 'f' then some (c.toNat - 'a'.toNat + 10)
  else if 'A' ≤ c ∧ c ≤ 'F' then some (c.toNat - 'A'.toNat + 10)
  else none

/-- Go `hex.Decode`: pairs of digits become bytes `(a << 4) | b`; an invalid
digit is an `InvalidByteError`; a trailing single valid digit is `ErrLength`. -/
def decode : List Char → Except HexError Bytes
  | [] => .ok []
  | [p] =>
    match fromHexChar p with
    | none => .error (.InvalidByteError p)
    | some _ => .error .ErrLength
  | p :: q :: rest =>
    match fromHexChar p with
    | none => .error (.InvalidByteError p)
    | some a =>
      match fromHexChar q with
      | none => .error (.InvalidByteError q)
      | some b =>
        match decode rest with
        | .error e => .error e
        | .ok bs => .ok (toByte (a * 16 + b) :: bs)

/-- Go `hex.DecodeString`. -/
def DecodeString (s : String) : Except HexError Bytes := decode s.data

end hex

/-! ## encoding/base64, `StdEncoding` -/

namespace base64

/-- The standard alphabet of RFC 4648, `encodeStd`. -/
def encodeStd : List Char :=
  ['A', 'B', 'C', 'D', 'E', 'F', 'G', 'H', 'I', 'J', 'K', 'L', 'M',
   'N', 'O', 'P', 'Q', 'R', 'S', 'T', 'U', 'V', 'W', 'X', 'Y', 'Z',
   'a', 'b', 'c', 'd', 'e', 'f', 'g', 'h', 'i', 'j', 'k', 'l', 'm',
   'n', 'o', 'p', 'q', 'r', 's', 't', 'u', 'v', 'w', 'x', 'y', 'z',
   '0', '1', '2', '3', '4', '5', '6', '7', '8', '9', '+', '/']

/-- The padding character `StdPadding`. -/
def padChar : Char := '='

/-- Alphabet lookup `enc.encode[i & 0x3F]`. -/
def encChar (i : Nat) : Char := encodeStd.getD (i % 64) 'A'

/-- Go `Encoding.Encode` for `StdEncoding`: each 3-byte group gives four
characters; a remainder of one or two bytes is padded with `=`. -/
def encode : Bytes → List Char
  | [] => []
  | [b0] =>
    let val := b0.val * 65536
    [encChar (val / 262144), encChar (val / 4096), padChar, padChar]
  | [b0, b1] =>
    let val := b0.val * 65536 + b1.val * 256
    [encChar (val / 262144), encChar (val / 4096), encChar (val / 64), padChar]
  | b0 :: b1 :: b2 :: rest =>
    let val := b0.val * 65536 + b1.val * 256 + b2.val
    encChar (val / 262144) :: encChar (val / 4096) :: encChar (val / 64) :: encChar val
      :: encode rest

/-- Go `StdEncoding.EncodeToString`. -/
def EncodeToString (src : Bytes) : String := String.mk (encode src)

/-- The decoding table `enc.decodeMap`: position of a character in the
alphabet, `none` for the table's `0xff` entries. -/
def decodeMap (c : Char) : Option Nat :=
  let i := encodeStd.indexOf c
  if i < 64 then some i else none

/-- Go `CorruptInputError`. -/
inductive CorruptInputError where
  | corrupt
  deriving DecidableEq, Repr

/-- Go `Encoding.decodeQuantum` iterated over the input, after the carriage
returns and line feeds (which the decoder skips) have been removed: four
alphabet characters give three bytes; `xx==` and `xxx=` are accepted only as
the last group and give one and two bytes; anything else is corrupt. -/
def decodeQuanta : List Char → Except CorruptInputError Bytes
  | [] => .ok []
  | c0 :: c1 :: c2 :: c3 :: rest =>
    match decodeMap c0, decodeMap c1 with
    | some d0, some d1 =>
      match decodeMap c2, decodeMap c3 with
      | some d2, some d3 =>
        let val := d0 * 262144 + d1 * 4096 + d2 * 64 + d3
        match decodeQuanta rest with
        | .error e => .error e
        | .ok bs => .ok (toByte (val / 65536) :: toByte (val / 256) :: toByte val :: bs)
      | some d2, none =>
        let val := d0 * 262144 + d1 * 4096 + d2 * 64
        if c3 = padChar ∧ rest = [] then .ok [toByte (val / 65536), toByte (val / 256)]
        else .error .corrupt
      | none, _ =>
        let val := d0 * 262144 + d1 * 4096
        if c2 = padChar ∧ c3 = padChar ∧ rest = [] then .ok [toByte (val / 65536)]
        else .error .corrupt
    | _, _ => .error .corrupt
  | _ => .error .corrupt

/-- Go `StdEncoding.DecodeString`. -/
def DecodeString (s : String) : Except CorruptInputError Bytes :=
  decodeQuanta (s.data.filter fun c => c ≠ '\r' ∧ c ≠ '\n')

end base64

/-! ## regexp: the seed pattern of `createKeyManager` -/

namespace regexp

/-- The character class `[0-9a-fA-F]`. -/
def isHexClass (c : Char) : Bool :=
  decide (('0' ≤ c ∧ c ≤ '9') ∨ ('a' ≤ c ∧ c ≤ 'f') ∨ ('A' ≤ c ∧ c ≤ 'F'))

/-- Go `regexp.MustCompile("^[0-9a-fA-F]{64}$").FindString`: the pattern is
anchored at both ends of the text (Go's `$` does not match before a final
newline), so the match is the whole string or nothing; no match is `""`. -/
def FindString (s : String) : String :=
  if s.data.length = 64 ∧ s.data.all isHexClass = true then s else ""

end regexp

/-! ## Data model (`key_managers.go`) -/

/-- Go `type KeyPair struct`. -/
structure KeyPair where
  PrivateKey : String
  PublicKey : String
  Address : String
  deriving DecidableEq, Repr

/-- Go `type KeyManager struct`; `KeyPairs` is a `[]*KeyPair`, so an element
may be the nil pointer (`none`). -/
structure KeyManager where
  ServiceName : String
  KeyPairs : List (Option KeyPair)
  deriving DecidableEq, Repr

/-! ## Errors, panics, outcomes -/

/-- The `error` values the handlers return. Each constructor is one
`fmt.Errorf` site of the source, or an error handed through unchanged. -/
inductive Error where
  /-- An error returned by the storage adapter (`Get`, `Put`, `Delete`, `List`). -/
  | storage (msg : String)
  /-- An error returned by `entry.DecodeJSON`. -/
  | decodeJSON (msg : String)
  /-- The message "serviceName must be a non-empty string". -/
  | serviceNameEmpty
  /-- The message "privateKey must be 32-byte hex". -/
  | privateKeyNot32ByteHex
  /-- The message "invalid privateKey hex: %w". -/
  | invalidPrivateKeyHex (cause : hex.HexError)
  /-- The message "failed to generate seed: %w". -/
  | seedGeneration (cause : String)
  /-- The message "key-manager %q not found". -/
  | keyManagerNotFound (name : String)
  /-- The message "invalid stored seed hex: %w" (`signHash`). -/
  | invalidStoredSeedHex (cause : hex.HexError)
  /-- The message "invalid seed hex: %w" (`transferTon`, `transferJetton`). -/
  | invalidSeedHex (cause : hex.HexError)
  /-- The message "invalid hash hex: %w". -/
  | invalidHashHex (cause : hex.HexError)
  /-- The message "hash must be 32 bytes, got %d". -/
  | hashLength (got : Nat)
  deriving DecidableEq, Repr

/-- The error taxonomy of the specification. -/
inductive ErrorKind where
  | ValidationError
  | NotFoundError
  | StorageError
  | Other
  deriving DecidableEq, Repr

/-- Modelled from the spec: the taxonomy of section 7, which the source does
not declare as types: malformed caller input is a `ValidationError`, a missing
record a `NotFoundError`, a failure of the storage adapter a `StorageError`. -/
def Error.kind : Error → ErrorKind
  | .storage _ => .StorageError
  | .decodeJSON _ => .Other
  | .serviceNameEmpty => .ValidationError
  | .privateKeyNot32ByteHex => .ValidationError
  | .invalidPrivateKeyHex _ => .ValidationError
  | .seedGeneration _ => .Other
  | .keyManagerNotFound _ => .NotFoundError
  | .invalidStoredSeedHex _ => .Other
  | .invalidSeedHex _ => .Other
  | .invalidHashHex _ => .ValidationError
  | .hashLength _ => .ValidationError

/-- Run-time panics the handlers can raise. -/
inductive Panic where
  /-- Indexing `km.KeyPairs[0]` on an empty slice. -/
  | indexOutOfRange
  /-- Selecting a field through a nil `*KeyPair`. -/
  | nilPointerDereference
  /-- The panic of `ed25519.NewKeyFromSeed` on a seed that is not 32 bytes. -/
  | badSeedLength (len : Nat)
  /-- The panic of `ed25519.Sign` on a private key that is not 64 bytes. -/
  | badPrivateKeyLength (len : Nat)
  /-- The panic of `deriveTonAddress` when address generation fails. -/
  | deriveTonAddress (msg : String)
  deriving DecidableEq, Repr

/-- What a Go call does: return a value, return an `error`, or panic. -/
inductive Outcome (α : Type) where
  | ok (a : α)
  | error (e : Error)
  | panic (p : Panic)
  deriving DecidableEq, Repr

/-- A value of a response's `Data` map. -/
inductive Field where
  | string (s : String)
  | strings (l : List String)
  deriving DecidableEq, Repr

/-- Go `logical.Response`, reduced to its `Data` map (as an association list
in the order the source writes the keys). -/
structure Response where
  Data : List (String × Field)
  deriving DecidableEq, Repr

/-- Go `logical.ListResponse`: the key `keys` is present only when the list
is not empty. -/
def ListResponse (keys : List String) : Response :=
  if keys = [] then { Data := [] } else { Data := [("keys", .strings keys)] }

/-! ## The storage adapter -/

/-- The bytes of a storage entry, identified with what `DecodeJSON` makes of
them: a `KeyManager` (the JSON codec round-trips), or a decoding error. -/
inductive Value where
  | json (km : KeyManager)
  | malformed (msg : String)
  deriving DecidableEq, Repr

/-- Go `logical.StorageEntry`. -/
structure StorageEntry where
  Key : String
  Value : Value
  deriving DecidableEq, Repr

/-- Go `logical.StorageEntryJSON`. -/
def StorageEntryJSON (k : String) (km : KeyManager) : StorageEntry :=
  { Key := k, Value := .json km }

/-- Go `entry.DecodeJSON(&km)`. -/
def StorageEntry.DecodeJSON (entry : StorageEntry) : Except Error KeyManager :=
  match entry.Value with
  | .json km => .ok km
  | .malformed msg => .error (.decodeJSON msg)

namespace Entries

/-- The value stored under a key. -/
def lookup (k : String) : List (String × Value) → Option Value
  | [] => none
  | (k', v) :: es => if k' = k then some v else lookup k es

/-- Store a value under a key, replacing the value already there. -/
def insert (k : String) (v : Value) : List (String × Value) → List (String × Value)
  | [] => [(k, v)]
  | (k', v') :: es => if k' = k then (k, v) :: es else (k', v') :: insert k v es

/-- Remove a key. -/
def erase (k : String) (es : List (String × Value)) : List (String × Value) :=
  es.filter fun e => e.1 ≠ k

/-- Modelled from the spec: the storage list "returns immediate child names
under a prefix, not full recursive listing". The name under which a key is
listed below a prefix is the rest of the key after the prefix, cut after its
first `/`: a deeper key is listed as the folder that holds it, the folder's
name ending in `/` as in Vault's storage; `none` when the key is not below the
prefix. -/
def childName (pfx key : List Char) : Option (List Char) :=
  if pfx.isPrefixOf key = true then
    let trimmed := key.drop pfx.length
    let name := trimmed.takeWhile fun c => c ≠ '/'
    if name.length = trimmed.length then some trimmed else some (name ++ ['/'])
  else none

end Entries

/-- Modelled from the spec: the Storage Adapter, "a namespaced key-value
store supporting get(path), put(path, value), delete(path), list(prefix)",
whose implementation is outside the repository. The state is the stored
entries together with the failures the adapter reports for each operation
and path (`none`: the operation works). -/
structure Storage where
  entries : List (String × Value)
  getErr : String → Option String
  putErr : String → Option String
  deleteErr : String → Option String
  listErr : String → Option String

namespace Storage

/-- Storage `Get`: the entry at a path, `none` when there is none. -/
def Get (st : Storage) (p : String) : Except Error (Option StorageEntry) :=
  match st.getErr p with
  | some msg => .error (.storage msg)
  | none =>
    match Entries.lookup p st.entries with
    | none => .ok none
    | some v => .ok (some { Key := p, Value := v })

/-- Storage `Put`: a failed write leaves the store as it was. -/
def Put (st : Storage) (entry : StorageEntry) : Except Error Storage :=
  match st.putErr entry.Key with
  | some msg => .error (.storage msg)
  | none => .ok { st with entries := Entries.insert entry.Key entry.Value st.entries }

/-- Storage `Delete`: deleting an absent path is not an error. -/
def Delete (st : Storage) (p : String) : Except Error Storage :=
  match st.deleteErr p with
  | some msg => .error (.storage msg)
  | none => .ok { st with entries := Entries.erase p st.entries }

/-- Storage `List`: the child names of the stored keys below the prefix, each
name once, in no specified order. -/
def List (st : Storage) (pfx : String) : Except Error (List String) :=
  match st.listErr pfx with
  | some msg => .error (.storage msg)
  | none =>
    .ok ((st.entries.filterMap fun e => (Entries.childName pfx.data e.1.data).map String.mk).dedup)

end Storage

/-! ## Cryptographic and wallet libraries -/

/-- The library functions the handlers call and whose bodies are outside the
repository: `crypto/ed25519`, `crypto/sha256` and tongo's
`wallet.GenerateWalletAddress` (at the fixed arguments `wallet.V4R2, nil, 0,
nil`). They are parameters of the development; the two laws are the sizes
`ed25519.PrivateKeySize` and `ed25519.SignatureSize`. -/
structure Crypto where
  /-- The key expansion of `ed25519.NewKeyFromSeed`, on a 32-byte seed. -/
  newKeyFromSeed : Bytes → Bytes
  /-- The method `PrivateKey.Public`. -/
  Public : Bytes → Bytes
  /-- The signature of `ed25519.Sign`, on a 64-byte private key. -/
  sign : Bytes → Bytes → Bytes
  /-- The digest of `sha256.Sum256`. -/
  Sum256 : Bytes → Bytes
  /-- The address string of `wallet.GenerateWalletAddress`, or its error. -/
  GenerateWalletAddress : Bytes → Except String String
  privateKeySize : ∀ seed : Bytes, seed.length = 32 → (newKeyFromSeed seed).length = 64
  signatureSize : ∀ priv msg : Bytes, priv.length = 64 → (sign priv msg).length = 64

namespace ed25519

/-- Go `ed25519.SeedSize`. -/
def SeedSize : Nat := 32

/-- Go `ed25519.PrivateKeySize`. -/
def PrivateKeySize : Nat := 64

/-- Go `ed25519.NewKeyFromSeed`: panics unless the seed has `SeedSize` bytes. -/
def NewKeyFromSeed (c : Crypto) (seed : Bytes) : Outcome Bytes :=
  if seed.length ≠ SeedSize then .panic (.badSeedLength seed.length)
  else .ok (c.newKeyFromSeed seed)

/-- Go `ed25519.Sign`: panics unless the key has `PrivateKeySize` bytes. -/
def Sign (c : Crypto) (priv message : Bytes) : Outcome Bytes :=
  if priv.length ≠ PrivateKeySize then .panic (.badPrivateKeyLength priv.length)
  else .ok (c.sign priv message)

end ed25519

namespace rand

/-- Go `rand.Read(b)`: fills the buffer `b` from the entropy source, given
here as the bytes it delivers (or the error it reports). -/
def Read (b : Bytes) (entropy : Except String Bytes) : Except String Bytes :=
  match entropy with
  | .error e => .error e
  | .ok bs => .ok ((List.range b.length).map fun i => bs.getD i 0)

end rand

/-! ## `utils.go` -/

/-- Go `deriveTonAddress`: the wallet address of a public key, as the string
`addr.String()` of the account id the wallet library returns (its raw form;
the source comment speaks of the bounceable user-friendly form); an error of
the wallet library becomes a panic. -/
def deriveTonAddress (c : Crypto) (pub : Bytes) : Outcome String :=
  match c.GenerateWalletAddress pub with
  | .error msg => .panic (.deriveTonAddress msg)
  | .ok addr => .ok addr

/-! ## `key_managers.go` -/

/-- Go `retrieveKeyManager`: the record of a service, `none` (a nil pointer
and a nil error) when nothing is stored at `key-managers/<svc>`. -/
def retrieveKeyManager (st : Storage) (svc : String) : Except Error (Option KeyManager) :=
  let p := "key-managers/" ++ svc
  match st.Get p with
  | .error err => .error err
  | .ok none => .ok none
  | .ok (some entry) =>
    match entry.DecodeJSON with
    | .error err => .error err
    | .ok km => .ok (some km)

/-! ## `path_create_list.go` -/

/-- Go `zeroSeed`: overwrite every byte of the buffer with zero. -/
def zeroSeed (b : Bytes) : Bytes := b.map fun _ => 0

/-- Go `defer zeroSeed(seed)`: what follows the `defer` statement computes the
handler's result from the seed; the buffer is zeroed when the handler returns
(or panics). The pair is that result and the buffer as it is left. -/
def deferZeroSeed {α : Type} (seed : Bytes) (result : α) : α × Bytes :=
  (result, zeroSeed seed)

/-- Go `listKeyManagers`. -/
def listKeyManagers (st : Storage) : Outcome (Option Response) :=
  match st.List "key-managers/" with
  | .error err => .error err
  | .ok services => .ok (some (ListResponse services))

/-- The seed of `createKeyManager`: imported from `privateKey` when that is
not empty, read from the entropy source otherwise. -/
def createSeed (seedHex : String) (entropy : Except String Bytes) : Except Error Bytes :=
  if seedHex ≠ "" then
    if regexp.FindString seedHex = "" then .error .privateKeyNot32ByteHex
    else
      match hex.DecodeString seedHex with
      | .error err => .error (.invalidPrivateKeyHex err)
      | .ok seed => .ok seed
  else
    match rand.Read (List.replicate ed25519.SeedSize 0) entropy with
    | .error err => .error (.seedGeneration err)
    | .ok seed => .ok seed

/-- The step "retrieve or init KeyManager" of `createKeyManager`:
`if km == nil { km = &KeyManager{ServiceName: svc} }`. -/
def orInit (r : Option KeyManager) (svc : String) : KeyManager :=
  match r with
  | none => { ServiceName := svc, KeyPairs := [] }
  | some km => km

/-- Go `createKeyManager`. The arguments are the request's storage, its
fields `serviceName` and `privateKey` (an absent field is `""`), and what the
entropy source delivers if it is read. The result is the handler's outcome and
the storage after the call. The deferred `zeroSeed(seed)` runs when the
handler returns, after `kp` and the stored entry have been built from the
seed: the zeroed buffer is no part of what is returned or stored. -/
def createKeyManager (c : Crypto) (st : Storage) (serviceName privateKey : String)
    (entropy : Except String Bytes) : Outcome (Option Response) × Storage :=
  let svc := serviceName
  if svc = "" then (.error .serviceNameEmpty, st)
  else
    let seedHex := privateKey
    match retrieveKeyManager st svc with
    | .error err => (.error err, st)
    | .ok r =>
      let km : KeyManager := orInit r svc
      match createSeed seedHex entropy with
      | .error err => (.error err, st)
      | .ok seed =>
        match ed25519.NewKeyFromSeed c seed with
        | .error err => (.error err, st)
        | .panic p => (.panic p, st)
        | .ok priv =>
          let pub := c.Public priv
          (deferZeroSeed seed <|
            match deriveTonAddress c pub with
            | .error err => (.error err, st)
            | .panic p => (.panic p, st)
            | .ok addr =>
              let kp : KeyPair :=
                { PrivateKey := hex.EncodeToString seed
                  PublicKey := hex.EncodeToString pub
                  Address := addr }
              let km : KeyManager := { km with KeyPairs := km.KeyPairs ++ [some kp] }
              let entry := StorageEntryJSON ("key-managers/" ++ svc) km
              match st.Put entry with
              | .error err => (.error err, st)
              | .ok st' =>
                (.ok (some { Data := [("service_name", .string km.ServiceName),
                                       ("address", .string kp.Address),
                                       ("public_key", .string kp.PublicKey)] }), st')).1

/-! ## `path_read_delete.go` -/

namespace framework

/-- The class `\w` of Go's `regexp`: an ASCII letter, a digit or `_`. -/
def isWord (c : Char) : Bool :=
  decide (('0' ≤ c ∧ c ≤ '9') ∨ ('A' ≤ c ∧ c ≤ 'Z') ∨ ('a' ≤ c ∧ c ≤ 'z') ∨ c = '_')

/-- The class `[\w-.]`. -/
def isNameChar (c : Char) : Bool :=
  isWord c || decide (c = '-') || decide (c = '.')

/-- Go `framework.GenericNameRegex("name")`, the group `\w(([\w-.]+)?\w)?`,
as the framework anchors it: whether the whole string is a generic name. The
pattern of `pathReadAndDelete` is `key-managers/` followed by this group, so
the field `name` of `readKeyManager` and `deleteKeyManager` is always such a
string. -/
def GenericNameRegex (name : String) : Bool :=
  match name.data with
  | [] => false
  | c :: rest => isWord c && rest.all isNameChar && rest.getLast?.all isWord

end framework

/-- The loop of `readKeyManager`: `addresses[i] = kp.Address` for each pair;
a nil pair is a nil-pointer dereference. -/
def collectAddresses : List (Option KeyPair) → Outcome (List String)
  | [] => .ok []
  | none :: _ => .panic .nilPointerDereference
  | some kp :: rest =>
    match collectAddresses rest with
    | .ok addrs => .ok (kp.Address :: addrs)
    | .error err => .error err
    | .panic p => .panic p

/-- Go `readKeyManager`: the response holds `service_name` and `addresses`
only (the help text of the path also announces public keys). -/
def readKeyManager (st : Storage) (name : String) : Outcome (Option Response) :=
  match retrieveKeyManager st name with
  | .error err => .error err
  | .ok none => .error (.keyManagerNotFound name)
  | .ok (some km) =>
    match collectAddresses km.KeyPairs with
    | .error err => .error err
    | .panic p => .panic p
    | .ok addresses =>
      .ok (some { Data := [("service_name", .string km.ServiceName),
                           ("addresses", .strings addresses)] })

/-- Go `deleteKeyManager`: a nil response and a nil error when the record is
absent or has been deleted. -/
def deleteKeyManager (st : Storage) (name : String) : Outcome (Option Response) × Storage :=
  match retrieveKeyManager st name with
  | .error err => (.error err, st)
  | .ok none => (.ok none, st)
  | .ok (some _) =>
    let path := "key-managers/" ++ name
    match st.Delete path with
    | .error err => (.error err, st)
    | .ok st' => (.ok none, st')

/-! ## `path_sign.go` -/

/-- Go `signHash`. The seed is decoded and expanded before the hash is looked
at; a failed or empty retrieval is reported as "not found". -/
def signHash (c : Crypto) (st : Storage) (name hashHex : String) : Outcome (Option Response) :=
  match retrieveKeyManager st name with
  | .error _ => .error (.keyManagerNotFound name)
  | .ok none => .error (.keyManagerNotFound name)
  | .ok (some km) =>
    match km.KeyPairs with
    | [] => .panic .indexOutOfRange
    | none :: _ => .panic .nilPointerDereference
    | some kp0 :: _ =>
      match hex.DecodeString kp0.PrivateKey with
      | .error err => .error (.invalidStoredSeedHex err)
      | .ok seed =>
        match ed25519.NewKeyFromSeed c seed with
        | .error err => .error err
        | .panic p => .panic p
        | .ok priv =>
          (deferZeroSeed seed <|
            match hex.DecodeString hashHex with
            | .error err => .error (.invalidHashHex err)
            | .ok hashBytes =>
              if hashBytes.length ≠ 32 then .error (.hashLength hashBytes.length)
              else
                match ed25519.Sign c priv hashBytes with
                | .error err => .error err
                | .panic p => .panic p
                | .ok sig =>
                  .ok (some { Data := [("signature", .string (hex.EncodeToString sig))] })).1

/-! ## `path_transfer_ton.go`, `path_transfer_jetton.go` -/

/-- Go `transferTon`: the stored seed of `KeyPairs[0]` stands for the signed
message; `signed_boc` is its base64 form and `msg_id` the hex of its SHA-256. -/
def transferTon (c : Crypto) (st : Storage) (name : String) : Outcome (Option Response) :=
  match retrieveKeyManager st name with
  | .error _ => .error (.keyManagerNotFound name)
  | .ok none => .error (.keyManagerNotFound name)
  | .ok (some km) =>
    match km.KeyPairs with
    | [] => .panic .indexOutOfRange
    | none :: _ => .panic .nilPointerDereference
    | some kp0 :: _ =>
      match hex.DecodeString kp0.PrivateKey with
      | .error err => .error (.invalidSeedHex err)
      | .ok seed =>
        let boc := seed
        let bocB64 := base64.EncodeToString boc
        let id := c.Sum256 boc
        .ok (some { Data := [("signed_boc", .string bocB64),
                             ("msg_id", .string (hex.EncodeToString id))] })

/-- Go `transferJetton`: as `transferTon`; the field `jettonWallet` is
declared but never read. -/
def transferJetton (c : Crypto) (st : Storage) (name : String) (_jettonWallet : String) :
    Outcome (Option Response) :=
  match retrieveKeyManager st name with
  | .error _ => .error (.keyManagerNotFound name)
  | .ok none => .error (.keyManagerNotFound name)
  | .ok (some km) =>
    match km.KeyPairs with
    | [] => .panic .indexOutOfRange
    | none :: _ => .panic .nilPointerDereference
    | some kp0 :: _ =>
      match hex.DecodeString kp0.PrivateKey with
      | .error err => .error (.invalidSeedHex err)
      | .ok seed =>
        let boc := seed
        let bocB64 := base64.EncodeToString boc
        let id := c.Sum256 boc
        .ok (some { Data := [("signed_boc", .string bocB64),
                             ("msg_id", .string (hex.EncodeToString id))] })

/-- Look a key up in a response's `Data`. -/
def Response.get (r : Response) (k : String) : Option Field :=
  (r.Data.find? fun e => e.1 = k).map fun e => e.2

/-! ## Concrete instances, for evaluating the handlers -/

/-- A stand-in for the cryptographic libraries with the right sizes, used to
run the handlers on concrete inputs: the "public key" of a seed is the seed
with every byte incremented, a "signature" is the first 32 bytes of the key
followed by the message, cut or zero-padded to 64 bytes, the "digest" is the
input cut or zero-padded to 32 bytes, the address is `0:` and the hex of the
public key. -/
def demoCrypto : Crypto where
  newKeyFromSeed seed := seed ++ seed.map fun b => b + 1
  Public priv := priv.drop 32
  sign priv msg := (priv.take 32 ++ msg ++ List.replicate 64 0).take 64
  Sum256 bs := (bs ++ List.replicate 32 0).take 32
  GenerateWalletAddress pub := .ok ("0:" ++ hex.EncodeToString pub)
  privateKeySize := by
    intro seed h
    simp [h]
  signatureSize := by
    intro priv msg _
    simp only [List.length_take, List.length_append, List.length_replicate]
    omega

/-- The empty storage on which no operation fails. -/
def emptyStorage : Storage :=
  { entries := []
    getErr := fun _ => none
    putErr := fun _ => none
    deleteErr := fun _ => none
    listErr := fun _ => none }

/-- A storage with the given entries on which no operation fails. -/
def storageOf (es : List (String × Value)) : Storage :=
  { emptyStorage with entries := es }

/-- The seed imported by the repository's test `TestCreateAndListKeyManagers`. -/
def testSeedHex : String :=
  "0123456789abcdef0123456789abcdef0123456789abcdef0123456789abcdef"

/-- The 32 bytes that `testSeedHex` decodes to. -/
def testSeed : Bytes :=
  [1, 35, 69, 103, 137, 171, 205, 239, 1, 35, 69, 103, 137, 171, 205, 239,
   1, 35, 69, 103, 137, 171, 205, 239, 1, 35, 69, 103, 137, 171, 205, 239]

/-- The hex form of the all-zero 32-byte digest signed by `TestSignHash`. -/
def zeroHashHex : String :=
  "0000000000000000000000000000000000000000000000000000000000000000"

/-- The key pair `createKeyManager` derives from `testSeed` under `demoCrypto`. -/
def testPair : KeyPair :=
  { PrivateKey := testSeedHex
    PublicKey := "022446688aaccef0022446688aaccef0022446688aaccef0022446688aaccef0"
    Address := "0:022446688aaccef0022446688aaccef0022446688aaccef0022446688aaccef0" }

/-- A second key pair, with an upper-case stored seed. -/
def otherPair : KeyPair :=
  { PrivateKey := "FFFFFFFFFFFFFFFFFFFFFFFFFFFFFFFFFFFFFFFFFFFFFFFFFFFFFFFFFFFFFFFF"
    PublicKey := "0000000000000000000000000000000000000000000000000000000000000000"
    Address := "0:0000000000000000000000000000000000000000000000000000000000000000" }

/-! ## Sequences of calls and the states they reach -/

/-- A call of one of the two handlers that write to the storage. -/
inductive Call where
  | create (serviceName privateKey : String) (entropy : Except String Bytes)
  | delete (name : String)

/-- The storage after a call, whether the call succeeded or failed. -/
def Call.run (c : Crypto) (st : Storage) : Call → Storage
  | .create serviceName privateKey entropy =>
    (createKeyManager c st serviceName privateKey entropy).2
  | .delete name => (deleteKeyManager st name).2

/-- The result of a call: its outcome. -/
def Call.outcome (c : Crypto) (st : Storage) : Call → Outcome (Option Response)
  | .create serviceName privateKey entropy =>
    (createKeyManager c st serviceName privateKey entropy).1
  | .delete name => (deleteKeyManager st name).1

/-- The storage states reachable from an empty storage by calls of
`createKeyManager` and `deleteKeyManager`, successful or failing; between
calls the adapter may change which operations it fails. -/
inductive Reachable (c : Crypto) : Storage → Prop where
  | empty (st : Storage) (h : st.entries = []) : Reachable c st
  | call (st : Storage) (call : Call) (h : Reachable c st) : Reachable c (call.run c st)
  | faults (st : Storage) (g p d l : String → Option String) (h : Reachable c st) :
      Reachable c { st with getErr := g, putErr := p, deleteErr := d, listErr := l }

/-- A key pair as `createKeyManager` builds it from a 32-byte seed. -/
def DerivedPair (c : Crypto) (p : Option KeyPair) : Prop :=
  ∃ (kp : KeyPair) (seed : Bytes), p = some kp ∧ seed.length = 32 ∧
    kp.PrivateKey = hex.EncodeToString seed ∧
    kp.PublicKey = hex.EncodeToString (c.Public (c.newKeyFromSeed seed)) ∧
    deriveTonAddress c (c.Public (c.newKeyFromSeed seed)) = .ok kp.Address

/-- A stored entry as `createKeyManager` writes it: at the path of a
non-empty service name, a record carrying that name and at least one key
pair, every pair derived from a seed. -/
def WrittenByCreate (c : Crypto) (e : String × Value) : Prop :=
  ∃ (svc : String) (km : KeyManager), svc ≠ "" ∧ e.1 = "key-managers/" ++ svc ∧
    e.2 = .json km ∧ km.ServiceName = svc ∧ km.KeyPairs ≠ [] ∧
    ∀ p ∈ km.KeyPairs, DerivedPair c p

/-- The data-model invariant of a storage state. -/
def Invariant (c : Crypto) (st : Storage) : Prop :=
  ∀ e ∈ st.entries, WrittenByCreate c e

/-- The key pair `createKeyManager` builds from a seed and an address. -/
def newPair (c : Crypto) (seed : Bytes) (addr : String) : KeyPair :=
  { PrivateKey := hex.EncodeToString seed
    PublicKey := hex.EncodeToString (c.Public (c.newKeyFromSeed seed))
    Address := addr }

/-- The record `createKeyManager` stores: the old record, or a fresh one, with
the new pair appended. -/
def newRecord (c : Crypto) (r : Option KeyManager) (svc : String) (seed : Bytes)
    (addr : String) : KeyManager :=
  { ServiceName := (orInit r svc).ServiceName
    KeyPairs := (orInit r svc).KeyPairs ++ [some (newPair c seed addr)] }

/-- The storage after importing `testSeedHex` for the service `svc` into the
empty storage. -/
def storageAfterImport : Storage :=
  Call.run demoCrypto emptyStorage (.create "svc" testSeedHex (.ok []))

/-- The response of a transfer on `storageAfterImport` under `demoCrypto`. -/
def testTransferResponse : Response :=
  { Data := [("signed_boc", .string "ASNFZ4mrze8BI0VniavN7wEjRWeJq83vASNFZ4mrze8="),
             ("msg_id", .string testSeedHex)] }

/-- A storage whose every read fails with the given message. -/
def unreadableStorage (msg : String) : Storage :=
  { emptyStorage with getErr := fun _ => some msg }

/-- Successive `createKeyManager` calls for one service, each with its own
`privateKey` and entropy: the outcomes in call order and the final storage. -/
def createAll (c : Crypto) (svc : String) :
    Storage → List (String × Except String Bytes) → List (Outcome (Option Response)) × Storage
  | st, [] => ([], st)
  | st, (pk, entropy) :: rest =>
    let out := createKeyManager c st svc pk entropy
    let r := createAll c svc out.2 rest
    (out.1 :: r.1, r.2)

/-- The `address` a handler returned, if it returned one. -/
def addressOf : Outcome (Option Response) → Option String
  | .ok (some resp) =>
    match resp.get "address" with
    | some (.string a) => some a
    | _ => none
  | _ => none

/-- The old key pairs of a service: those of its record, none without one. -/
def pairsOf (r : Option KeyManager) : List (Option KeyPair) :=
  match r with
  | none => []
  | some km => km.KeyPairs

/-- Whether a call returned without error and without panic. -/
def Outcome.isOk {α : Type} : Outcome α → Bool
  | .ok _ => true
  | _ => false

/-- The storage after importing `testSeedHex` for `svc`, with every read
failing from then on (a sealed or unreachable store). -/
def sealedStorage : Storage :=
  { storageAfterImport with getErr := fun _ => some "sealed" }

/-- A storage on which every operation fails. -/
def failingStorage : Storage :=
  { entries := []
    getErr := fun _ => some "get failed"
    putErr := fun _ => some "put failed"
    deleteErr := fun _ => some "delete failed"
    listErr := fun _ => some "list failed" }

/-- The storage states reachable from an empty storage by successful
`createKeyManager` and `deleteKeyManager` calls whose service names satisfy
`P`; between calls the adapter may change which operations it fails. -/
inductive ReachableWith (c : Crypto) (P : String → Prop) : Storage → Prop where
  | empty (st : Storage) (h : st.entries = []) : ReachableWith c P st
  | create (st : Storage) (serviceName privateKey : String) (entropy : Except String Bytes)
      (h : ReachableWith c P st) (hname : P serviceName)
      (hok : (createKeyManager c st serviceName privateKey entropy).1.isOk = true) :
      ReachableWith c P (createKeyManager c st serviceName privateKey entropy).2
  | delete (st : Storage) (name : String) (h : ReachableWith c P st) (hname : P name)
      (hok : (deleteKeyManager st name).1.isOk = true) :
      ReachableWith c P (deleteKeyManager st name).2
  | faults (st : Storage) (g p d l : String → Option String) (h : ReachableWith c P st) :
      ReachableWith c P { st with getErr := g, putErr := p, deleteErr := d, listErr := l }

/-- The storage after a successful `createKeyManager` for the service `a/b`
on the empty storage. -/
def storageAfterSlashImport : Storage :=
  (createKeyManager demoCrypto emptyStorage "a/b" testSeedHex (.ok [])).2

/-- Every stored key is the path of a service whose name satisfies `P`. -/
def KeysNamed (P : String → Prop) (st : Storage) : Prop :=
  ∀ e ∈ st.entries, ∃ svc, P svc ∧ e.1 = "key-managers/" ++ svc

/-! # Theorems -/

namespace hex

theorem fromHexChar_hextable (n : Nat) (h : n < 16) :
    fromHexChar (hextable.getD n '0') = some n := by
  interval_cases n <;> rfl

theorem toByte_nibbles (v : Byte) : toByte (v.val / 16 * 16 + v.val % 16) = v := by
  apply Fin.ext
  have := v.isLt
  simp only [toByte]
  omega

theorem decode_encode (bs : Bytes) : decode (encode bs) = .ok bs := by
  induction bs with
  | nil => rfl
  | cons v rest ih =>
    have h1 : v.val / 16 < 16 := by have := v.isLt; omega
    have h2 : v.val % 16 < 16 := by omega
    simp only [encode, decode, fromHexChar_hextable _ h1, fromHexChar_hextable _ h2, ih,
      toByte_nibbles]

theorem hexRoundTrip (bs : Bytes) :
    DecodeString (EncodeToString bs) = .ok bs := by
  simp only [DecodeString, EncodeToString, decode_encode]

theorem isHexClass_fromHexChar (c : Char) (h : regexp.isHexClass c = true) :
    ∃ a, fromHexChar c = some a := by
  simp only [regexp.isHexClass, decide_eq_true_eq] at h
  unfold fromHexChar
  rcases h with h | h | h
  · exact ⟨_, if_pos h⟩
  · by_cases h0 : '0' ≤ c ∧ c ≤ '9'
    · exact ⟨_, if_pos h0⟩
    · rw [if_neg h0, if_pos h]; exact ⟨_, rfl⟩
  · by_cases h0 : '0' ≤ c ∧ c ≤ '9'
    · exact ⟨_, if_pos h0⟩
    · by_cases h1 : 'a' ≤ c ∧ c ≤ 'f'
      · rw [if_neg h0, if_pos h1]; exact ⟨_, rfl⟩
      · rw [if_neg h0, if_neg h1, if_pos h]; exact ⟨_, rfl⟩

theorem fromHexChar_isHexClass (c : Char) (a : Nat) (h : fromHexChar c = some a) :
    regexp.isHexClass c = true := by
  simp only [regexp.isHexClass, decide_eq_true_eq]
  unfold fromHexChar at h
  by_cases h0 : '0' ≤ c ∧ c ≤ '9'
  · exact Or.inl h0
  · by_cases h1 : 'a' ≤ c ∧ c ≤ 'f'
    · exact Or.inr (Or.inl h1)
    · by_cases h2 : 'A' ≤ c ∧ c ≤ 'F'
      · exact Or.inr (Or.inr h2)
      · rw [if_neg h0, if_neg h1, if_neg h2] at h; cases h

/-- A successful decoding has read two digits per byte, all hexadecimal. -/
theorem decode_ok (cs : List Char) : ∀ bs, decode cs = .ok bs →
    cs.length = 2 * bs.length ∧ cs.all regexp.isHexClass = true := by
  induction cs using decode.induct with
  | case1 => intro bs h; simp only [decode, Except.ok.injEq] at h; subst h; simp
  | case2 p hp => intro bs h; simp [decode, hp] at h
  | case3 p a hp => intro bs h; simp [decode, hp] at h
  | case4 p q rest hp => intro bs h; simp [decode, hp] at h
  | case5 p q rest a hp hq => intro bs h; simp [decode, hp, hq] at h
  | case6 p q rest a hp b hq e he ih => intro bs h; simp [decode, hp, hq, he] at h
  | case7 p q rest a hp b hq bs' he ih =>
    intro bs h
    simp only [decode, hp, hq, he, Except.ok.injEq] at h
    subst h
    obtain ⟨h1, h2⟩ := ih bs' he
    refine ⟨by simp only [List.length_cons]; omega, ?_⟩
    simp only [List.all_cons, fromHexChar_isHexClass p a hp, fromHexChar_isHexClass q b hq,
      h2, Bool.and_self]

/-- An even number of hexadecimal digits always decodes. -/
theorem decode_of_all_hex (n : Nat) : ∀ cs : List Char, cs.length = 2 * n →
    cs.all regexp.isHexClass = true → ∃ bs, decode cs = .ok bs ∧ bs.length = n := by
  induction n with
  | zero =>
    intro cs hl _
    have : cs = [] := List.length_eq_zero.mp (by omega)
    subst this
    exact ⟨[], rfl, rfl⟩
  | succ n ih =>
    intro cs hl hall
    match cs, hl, hall with
    | p :: q :: rest, hl, hall =>
      simp only [List.all_cons, Bool.and_eq_true] at hall
      obtain ⟨a, ha⟩ := isHexClass_fromHexChar p hall.1
      obtain ⟨b, hb⟩ := isHexClass_fromHexChar q hall.2.1
      obtain ⟨bs, hbs, hlen⟩ := ih rest (by simp only [List.length_cons] at hl; omega) hall.2.2
      exact ⟨toByte (a * 16 + b) :: bs, by simp only [decode, ha, hb, hbs], by simp [hlen]⟩
    | [_], hl, _ => simp at hl; omega
    | [], hl, _ => simp at hl

end hex

namespace base64

theorem decodeMap_getD (j : Nat) (h : j < 64) : decodeMap (encodeStd.getD j 'A') = some j := by
  interval_cases j <;> rfl

theorem decodeMap_encChar (i : Nat) : decodeMap (encChar i) = some (i % 64) :=
  decodeMap_getD (i % 64) (Nat.mod_lt i (by decide))

theorem decodeMap_padChar : decodeMap padChar = none := by decide

theorem keep_getD (j : Nat) (h : j < 64) :
    decide (encodeStd.getD j 'A' ≠ '\r' ∧ encodeStd.getD j 'A' ≠ '\n') = true := by
  interval_cases j <;> rfl

theorem keep_encChar (i : Nat) : decide (encChar i ≠ '\r' ∧ encChar i ≠ '\n') = true :=
  keep_getD (i % 64) (Nat.mod_lt i (by decide))

theorem keep_padChar : decide (padChar ≠ '\r' ∧ padChar ≠ '\n') = true := by decide

/-- The encoder never emits a character the decoder skips. -/
theorem filter_encode (bs : Bytes) :
    (encode bs).filter (fun c => decide (c ≠ '\r' ∧ c ≠ '\n')) = encode bs := by
  induction bs using encode.induct with
  | case1 => rfl
  | case2 b0 => simp only [encode, List.filter_cons, keep_encChar, keep_padChar, if_true, List.filter_nil]
  | case3 b0 b1 => simp only [encode, List.filter_cons, keep_encChar, keep_padChar, if_true, List.filter_nil]
  | case4 b0 b1 b2 rest ih =>
    simp only [encode, List.filter_cons, keep_encChar, if_true, ih]

theorem quantum3 (b0 b1 b2 : Byte) :
    let val := b0.val * 65536 + b1.val * 256 + b2.val
    let val' := val / 262144 % 64 * 262144 + val / 4096 % 64 * 4096 + val / 64 % 64 * 64 + val % 64
    toByte (val' / 65536) = b0 ∧ toByte (val' / 256) = b1 ∧ toByte val' = b2 := by
  have h0 := b0.isLt
  have h1 := b1.isLt
  have h2 := b2.isLt
  refine ⟨Fin.ext ?_, Fin.ext ?_, Fin.ext ?_⟩ <;> simp only [toByte] <;> omega

theorem quantum2 (b0 b1 : Byte) :
    let val := b0.val * 65536 + b1.val * 256
    let val' := val / 262144 % 64 * 262144 + val / 4096 % 64 * 4096 + val / 64 % 64 * 64
    toByte (val' / 65536) = b0 ∧ toByte (val' / 256) = b1 := by
  have h0 := b0.isLt
  have h1 := b1.isLt
  refine ⟨Fin.ext ?_, Fin.ext ?_⟩ <;> simp only [toByte] <;> omega

theorem quantum1 (b0 : Byte) :
    let val := b0.val * 65536
    let val' := val / 262144 % 64 * 262144 + val / 4096 % 64 * 4096
    toByte (val' / 65536) = b0 := by
  have h0 := b0.isLt
  refine Fin.ext ?_
  simp only [toByte]
  omega

theorem decodeQuanta_encode (bs : Bytes) : decodeQuanta (encode bs) = .ok bs := by
  induction bs using encode.induct with
  | case1 => rfl
  | case2 b0 =>
    have h := quantum1 b0
    simp only [encode, decodeQuanta, decodeMap_encChar, decodeMap_padChar, and_self, if_true] at h ⊢
    rw [h]
  | case3 b0 b1 =>
    have h := quantum2 b0 b1
    simp only [encode, decodeQuanta, decodeMap_encChar, decodeMap_padChar, and_self, if_true] at h ⊢
    rw [h.1, h.2]
  | case4 b0 b1 b2 rest ih =>
    have h := quantum3 b0 b1 b2
    simp only [encode, decodeQuanta, decodeMap_encChar, ih] at h ⊢
    rw [h.1, h.2.1, h.2.2]

/-- Decoding what `StdEncoding` encoded gives the bytes back. -/
theorem base64RoundTrip (bs : Bytes) :
    DecodeString (EncodeToString bs) = .ok bs := by
  simp only [DecodeString, EncodeToString, filter_encode, decodeQuanta_encode]

end base64

namespace Entries

theorem lookup_insert_self (k : String) (v : Value) (es : List (String × Value)) :
    lookup k (insert k v es) = some v := by
  induction es with
  | nil => simp [insert, lookup]
  | cons e es ih =>
    obtain ⟨k', v'⟩ := e
    by_cases h : k' = k
    · simp [insert, lookup, h]
    · simp [insert, lookup, h, ih]

theorem lookup_insert_of_ne (k k' : String) (v : Value) (es : List (String × Value))
    (h : k' ≠ k) : lookup k' (insert k v es) = lookup k' es := by
  induction es with
  | nil => simp [insert, lookup, Ne.symm h]
  | cons e es ih =>
    obtain ⟨k₁, v₁⟩ := e
    by_cases h₁ : k₁ = k
    · subst h₁
      simp [insert, lookup, Ne.symm h]
    · simp only [insert, h₁, if_false, lookup, ih]

theorem lookup_erase_self (k : String) (es : List (String × Value)) :
    lookup k (erase k es) = none := by
  induction es with
  | nil => rfl
  | cons e es ih =>
    obtain ⟨k₁, v₁⟩ := e
    by_cases h₁ : k₁ = k
    · simpa [erase, List.filter_cons, h₁] using ih
    · simpa [erase, List.filter_cons, h₁, lookup] using ih

theorem lookup_erase_of_ne (k k' : String) (es : List (String × Value)) (h : k' ≠ k) :
    lookup k' (erase k es) = lookup k' es := by
  induction es with
  | nil => rfl
  | cons e es ih =>
    obtain ⟨k₁, v₁⟩ := e
    by_cases h₁ : k₁ = k
    · subst h₁
      simpa [erase, List.filter_cons, lookup, Ne.symm h] using ih
    · by_cases h₂ : k₁ = k'
      · subst h₂
        simp [erase, List.filter_cons, h₁, lookup]
      · simpa [erase, List.filter_cons, h₁, lookup, h₂] using ih

theorem lookup_eq_none_iff (k : String) (es : List (String × Value)) :
    lookup k es = none ↔ ∀ e ∈ es, e.1 ≠ k := by
  induction es with
  | nil => simp [lookup]
  | cons e es ih =>
    obtain ⟨k₁, v₁⟩ := e
    by_cases h₁ : k₁ = k
    · simp [lookup, h₁]
    · simp [lookup, h₁, ih]

end Entries

/-- The storage path of a service determines the service. -/
theorem path_injective (a b : String) (h : "key-managers/" ++ a = "key-managers/" ++ b) :
    a = b := by
  have := congrArg String.data h
  simp only [String.data_append, List.append_cancel_left_eq] at this
  exact String.ext this

/-! ## Reading a record -/

theorem retrieveKeyManager_of_get (st : Storage) (svc : String) (km : KeyManager)
    (h : st.Get ("key-managers/" ++ svc) =
      .ok (some { Key := "key-managers/" ++ svc, Value := .json km })) :
    retrieveKeyManager st svc = .ok (some km) := by
  simp only [retrieveKeyManager, h, StorageEntry.DecodeJSON]

theorem retrieveKeyManager_of_get_none (st : Storage) (svc : String)
    (h : st.Get ("key-managers/" ++ svc) = .ok none) :
    retrieveKeyManager st svc = .ok none := by
  simp only [retrieveKeyManager, h]

/-! ## Signing with the first key pair (C1) -/

/-- C1: when the record of `name` exists, its first key pair is present and its
`private_key` is the hex of a 32-byte seed `s0`, and `hash` hex-decodes to 32
bytes `d`, `signHash` succeeds with `signature` the hex of the 64-byte
`Sign(NewKeyFromSeed(s0), d)`. The value is a function of `s0` and `d` alone:
a second storage, service and hash string with the same first pair and the same
digest give the same response, whatever the later pairs are. -/
theorem signHash_signs_with_first_pair (c : Crypto) (st st' : Storage)
    (name name' hash hash' : String) (km km' : KeyManager) (kp0 : KeyPair)
    (rest rest' : List (Option KeyPair)) (s0 d : Bytes)
    (hget : st.Get ("key-managers/" ++ name) =
      .ok (some { Key := "key-managers/" ++ name, Value := .json km }))
    (hget' : st'.Get ("key-managers/" ++ name') =
      .ok (some { Key := "key-managers/" ++ name', Value := .json km' }))
    (hpairs : km.KeyPairs = some kp0 :: rest)
    (hpairs' : km'.KeyPairs = some kp0 :: rest')
    (hseed : hex.DecodeString kp0.PrivateKey = .ok s0) (hs0 : s0.length = 32)
    (hhash : hex.DecodeString hash = .ok d) (hhash' : hex.DecodeString hash' = .ok d)
    (hd : d.length = 32) :
    signHash c st name hash =
        .ok (some { Data := [("signature",
          .string (hex.EncodeToString (c.sign (c.newKeyFromSeed s0) d)))] })
      ∧ (c.sign (c.newKeyFromSeed s0) d).length = 64
      ∧ signHash c st' name' hash' = signHash c st name hash := by
  have hk : (c.newKeyFromSeed s0).length = 64 := c.privateKeySize s0 hs0
  have key : ∀ (st : Storage) (name hash : String) (km : KeyManager)
      (rest : List (Option KeyPair)),
      st.Get ("key-managers/" ++ name) =
        .ok (some { Key := "key-managers/" ++ name, Value := .json km }) →
      km.KeyPairs = some kp0 :: rest → hex.DecodeString hash = .ok d →
      signHash c st name hash =
        .ok (some { Data := [("signature",
          .string (hex.EncodeToString (c.sign (c.newKeyFromSeed s0) d)))] }) := by
    intro st name hash km rest hg hp hh
    simp [signHash, deferZeroSeed, retrieveKeyManager_of_get st name km hg, hp, hseed, hh,
      ed25519.NewKeyFromSeed, ed25519.Sign, ed25519.SeedSize, ed25519.PrivateKeySize, hs0, hd, hk]
  refine ⟨key st name hash km rest hget hpairs hhash, c.signatureSize _ _ hk, ?_⟩
  rw [key st name hash km rest hget hpairs hhash, key st' name' hash' km' rest' hget' hpairs' hhash']

set_option maxRecDepth 100000 in
theorem signHash_signs_with_first_pair_witness :
    (storageOf [("key-managers/svc", .json ⟨"svc", [some testPair]⟩)]).Get
        ("key-managers/" ++ "svc") =
      .ok (some { Key := "key-managers/" ++ "svc", Value := .json ⟨"svc", [some testPair]⟩ })
    ∧ hex.DecodeString testPair.PrivateKey = .ok testSeed
    ∧ testSeed.length = 32
    ∧ hex.DecodeString zeroHashHex = .ok (List.replicate 32 0)
    ∧ (signHash demoCrypto (storageOf [("key-managers/svc", .json ⟨"svc", [some testPair]⟩)])
          "svc" zeroHashHex =
        .ok (some { Data := [("signature", .string (hex.EncodeToString
          (demoCrypto.sign (demoCrypto.newKeyFromSeed testSeed) (List.replicate 32 0))))] })
      ∧ (demoCrypto.sign (demoCrypto.newKeyFromSeed testSeed) (List.replicate 32 0)).length = 64
      ∧ signHash demoCrypto
          (storageOf [("key-managers/other", .json ⟨"x", [some testPair, none, some otherPair]⟩)])
          "other" zeroHashHex =
        signHash demoCrypto (storageOf [("key-managers/svc", .json ⟨"svc", [some testPair]⟩)])
          "svc" zeroHashHex) :=
  ⟨by decide, by decide, by decide, by decide,
    signHash_signs_with_first_pair demoCrypto
      (storageOf [("key-managers/svc", .json ⟨"svc", [some testPair]⟩)])
      (storageOf [("key-managers/other", .json ⟨"x", [some testPair, none, some otherPair]⟩)])
      "svc" "other" zeroHashHex zeroHashHex ⟨"svc", [some testPair]⟩
      ⟨"x", [some testPair, none, some otherPair]⟩ testPair [] [none, some otherPair]
      testSeed (List.replicate 32 0) (by decide) (by decide) rfl rfl (by decide) (by decide)
      (by decide) (by decide) (by decide)⟩

/-! ## The seed of `createKeyManager` -/

theorem FindString_eq_empty_iff (s : String) :
    regexp.FindString s = "" ↔ ¬(s.data.length = 64 ∧ s.data.all regexp.isHexClass = true) := by
  unfold regexp.FindString
  by_cases h : s.data.length = 64 ∧ s.data.all regexp.isHexClass = true
  · simp only [h, and_self, if_true, not_true_eq_false, iff_false]
    intro hs
    have := h.1
    rw [hs] at this
    simp at this
  · simp only [h, if_false, not_false_eq_true]

/-- An imported seed: exactly 64 hexadecimal digits decode to 32 bytes. -/
theorem createSeed_import (pk : String) (entropy : Except String Bytes)
    (hlen : pk.data.length = 64) (hhex : pk.data.all regexp.isHexClass = true) :
    ∃ seed, hex.DecodeString pk = .ok seed ∧ seed.length = 32 ∧
      createSeed pk entropy = .ok seed := by
  obtain ⟨seed, hdec, hl⟩ := hex.decode_of_all_hex 32 pk.data (by omega) hhex
  have hne : pk ≠ "" := by
    intro h
    rw [h] at hlen
    simp at hlen
  have hfind : ¬ regexp.FindString pk = "" := by
    rw [FindString_eq_empty_iff]
    exact fun h => h ⟨hlen, hhex⟩
  refine ⟨seed, hdec, hl, ?_⟩
  simp only [createSeed, hne, ne_eq, not_false_eq_true, if_true, hfind, if_false,
    hex.DecodeString, hdec]

/-- A non-empty `privateKey` that is not 64 hexadecimal digits is rejected. -/
theorem createSeed_reject (pk : String) (entropy : Except String Bytes) (hne : pk ≠ "")
    (hbad : ¬(pk.data.length = 64 ∧ pk.data.all regexp.isHexClass = true)) :
    createSeed pk entropy = .error .privateKeyNot32ByteHex := by
  have hfind : regexp.FindString pk = "" := (FindString_eq_empty_iff pk).mpr hbad
  simp only [createSeed, hne, ne_eq, not_false_eq_true, if_true, hfind]

/-- A generated seed: the first 32 bytes the entropy source delivers. -/
theorem createSeed_generate (entropy : Except String Bytes) :
    createSeed "" entropy =
      match rand.Read (List.replicate 32 0) entropy with
      | .error err => .error (.seedGeneration err)
      | .ok seed => .ok seed := by
  simp only [createSeed, ne_eq, not_true_eq_false, if_false, ed25519.SeedSize]

/-- Every seed `createKeyManager` obtains has 32 bytes. -/
theorem createSeed_length (pk : String) (entropy : Except String Bytes) (seed : Bytes)
    (h : createSeed pk entropy = .ok seed) : seed.length = 32 := by
  by_cases hne : pk = ""
  · subst hne
    rw [createSeed_generate] at h
    cases entropy with
    | error e => simp [rand.Read] at h
    | ok bs =>
      simp only [rand.Read, Except.ok.injEq] at h
      subst h
      simp
  · by_cases hm : pk.data.length = 64 ∧ pk.data.all regexp.isHexClass = true
    · obtain ⟨seed', _, hl, hc⟩ := createSeed_import pk entropy hm.1 hm.2
      rw [hc] at h
      cases h
      exact hl
    · rw [createSeed_reject pk entropy hne hm] at h
      cases h

/-! ## The shape of a `createKeyManager` call -/

/-- The successful path of `createKeyManager`. -/
theorem createKeyManager_ok (c : Crypto) (st : Storage) (svc pk : String)
    (entropy : Except String Bytes) (r : Option KeyManager) (seed : Bytes) (addr : String)
    (hsvc : svc ≠ "") (hr : retrieveKeyManager st svc = .ok r)
    (hseed : createSeed pk entropy = .ok seed)
    (haddr : deriveTonAddress c (c.Public (c.newKeyFromSeed seed)) = .ok addr)
    (hput : st.putErr ("key-managers/" ++ svc) = none) :
    createKeyManager c st svc pk entropy =
      (.ok (some { Data := [("service_name", .string (orInit r svc).ServiceName),
                            ("address", .string addr),
                            ("public_key", .string
                              (hex.EncodeToString (c.Public (c.newKeyFromSeed seed))))] }),
       { st with
         entries := Entries.insert ("key-managers/" ++ svc) (.json (newRecord c r svc seed addr))
           st.entries }) := by
  have hl := createSeed_length pk entropy seed hseed
  simp only [createKeyManager, deferZeroSeed, hsvc, if_false, hr, hseed, ed25519.NewKeyFromSeed,
    ed25519.SeedSize, hl, ne_eq, not_true_eq_false, haddr, Storage.Put, StorageEntryJSON, hput,
    newRecord, newPair]

/-- Every call of `createKeyManager` either leaves the storage as it was and
returns no response, or took the successful path. -/
theorem createKeyManager_cases (c : Crypto) (st : Storage) (svc pk : String)
    (entropy : Except String Bytes) :
    ((createKeyManager c st svc pk entropy).2 = st ∧
        ∀ resp, (createKeyManager c st svc pk entropy).1 ≠ .ok resp) ∨
      ∃ (r : Option KeyManager) (seed : Bytes) (addr : String), svc ≠ "" ∧
        retrieveKeyManager st svc = .ok r ∧ createSeed pk entropy = .ok seed ∧
        deriveTonAddress c (c.Public (c.newKeyFromSeed seed)) = .ok addr ∧
        st.putErr ("key-managers/" ++ svc) = none := by
  by_cases hsvc : svc = ""
  · left; simp [createKeyManager, deferZeroSeed, hsvc]
  cases hr : retrieveKeyManager st svc with
  | error e => left; simp [createKeyManager, deferZeroSeed, hsvc, hr]
  | ok r =>
    cases hseed : createSeed pk entropy with
    | error e => left; simp [createKeyManager, deferZeroSeed, hsvc, hr, hseed]
    | ok seed =>
      have hl := createSeed_length pk entropy seed hseed
      cases haddr : deriveTonAddress c (c.Public (c.newKeyFromSeed seed)) with
      | error e =>
        left
        simp [createKeyManager, deferZeroSeed, hsvc, hr, hseed, ed25519.NewKeyFromSeed, ed25519.SeedSize, hl,
          haddr]
      | panic p =>
        left
        simp [createKeyManager, deferZeroSeed, hsvc, hr, hseed, ed25519.NewKeyFromSeed, ed25519.SeedSize, hl,
          haddr]
      | ok addr =>
        cases hput : st.putErr ("key-managers/" ++ svc) with
        | some msg =>
          left
          simp [createKeyManager, deferZeroSeed, hsvc, hr, hseed, ed25519.NewKeyFromSeed, ed25519.SeedSize, hl,
            haddr, Storage.Put, StorageEntryJSON, hput]
        | none => exact Or.inr ⟨r, seed, addr, hsvc, rfl, rfl, haddr, rfl⟩

namespace Entries

theorem mem_insert (k : String) (v : Value) (es : List (String × Value)) (e : String × Value)
    (h : e ∈ insert k v es) : e = (k, v) ∨ e ∈ es := by
  induction es with
  | nil => simpa [insert] using h
  | cons e₁ es ih =>
    obtain ⟨k₁, v₁⟩ := e₁
    by_cases h₁ : k₁ = k
    · simp only [insert, h₁, if_true, List.mem_cons] at h
      rcases h with h | h
      · exact Or.inl h
      · exact Or.inr (List.mem_cons_of_mem _ h)
    · simp only [insert, h₁, if_false, List.mem_cons] at h
      rcases h with h | h
      · exact Or.inr (h ▸ List.mem_cons_self _ _)
      · rcases ih h with h | h
        · exact Or.inl h
        · exact Or.inr (List.mem_cons_of_mem _ h)

theorem mem_erase (k : String) (es : List (String × Value)) (e : String × Value)
    (h : e ∈ erase k es) : e ∈ es :=
  (List.mem_filter.mp h).1

theorem lookup_mem (k : String) (v : Value) (es : List (String × Value))
    (h : lookup k es = some v) : (k, v) ∈ es := by
  induction es with
  | nil => simp [lookup] at h
  | cons e₁ es ih =>
    obtain ⟨k₁, v₁⟩ := e₁
    by_cases h₁ : k₁ = k
    · simp only [lookup, h₁, if_true, Option.some.injEq] at h
      subst h₁ h
      exact List.mem_cons_self _ _
    · simp only [lookup, h₁, if_false] at h
      exact List.mem_cons_of_mem _ (ih h)

end Entries

/-! ## What a retrieval says about the storage -/

theorem retrieveKeyManager_some (st : Storage) (svc : String) (km : KeyManager)
    (h : retrieveKeyManager st svc = .ok (some km)) :
    st.getErr ("key-managers/" ++ svc) = none ∧
      Entries.lookup ("key-managers/" ++ svc) st.entries = some (.json km) := by
  unfold retrieveKeyManager Storage.Get at h
  cases hg : st.getErr ("key-managers/" ++ svc) with
  | some msg => simp [hg] at h
  | none =>
    cases hl : Entries.lookup ("key-managers/" ++ svc) st.entries with
    | none => simp [hg, hl] at h
    | some v =>
      cases v with
      | malformed msg => simp [hg, hl, StorageEntry.DecodeJSON] at h
      | json km' =>
        simp only [hg, hl, StorageEntry.DecodeJSON, Except.ok.injEq, Option.some.injEq] at h
        subst h
        exact ⟨rfl, rfl⟩

theorem retrieveKeyManager_none (st : Storage) (svc : String)
    (h : retrieveKeyManager st svc = .ok none) :
    st.getErr ("key-managers/" ++ svc) = none ∧
      Entries.lookup ("key-managers/" ++ svc) st.entries = none := by
  unfold retrieveKeyManager Storage.Get at h
  cases hg : st.getErr ("key-managers/" ++ svc) with
  | some msg => simp [hg] at h
  | none =>
    cases hl : Entries.lookup ("key-managers/" ++ svc) st.entries with
    | none => exact ⟨rfl, rfl⟩
    | some v =>
      cases v with
      | malformed msg => simp [hg, hl, StorageEntry.DecodeJSON] at h
      | json km' => simp [hg, hl, StorageEntry.DecodeJSON] at h

/-- A retrieval reads the storage only at the path of the service. -/
theorem retrieveKeyManager_eq (st : Storage) (svc : String) :
    retrieveKeyManager st svc =
      match st.getErr ("key-managers/" ++ svc) with
      | some msg => .error (.storage msg)
      | none =>
        match Entries.lookup ("key-managers/" ++ svc) st.entries with
        | none => .ok none
        | some (.json km) => .ok (some km)
        | some (.malformed msg) => .error (.decodeJSON msg) := by
  unfold retrieveKeyManager Storage.Get
  cases hg : st.getErr ("key-managers/" ++ svc) with
  | some msg => simp only [hg]
  | none =>
    cases hl : Entries.lookup ("key-managers/" ++ svc) st.entries with
    | none => simp only [hg, hl]
    | some v => cases v <;> simp only [hg, hl, StorageEntry.DecodeJSON]

/-! ## The shape of a `deleteKeyManager` call -/

/-- Every call of `deleteKeyManager` either leaves the storage as it was, or
found a record and erased its path. -/
theorem deleteKeyManager_cases (st : Storage) (name : String) :
    (deleteKeyManager st name).2 = st ∨
      ∃ km, retrieveKeyManager st name = .ok (some km) ∧
        st.deleteErr ("key-managers/" ++ name) = none ∧
        deleteKeyManager st name =
          (.ok none, { st with entries := Entries.erase ("key-managers/" ++ name) st.entries }) := by
  unfold deleteKeyManager
  cases hr : retrieveKeyManager st name with
  | error e => exact Or.inl rfl
  | ok r =>
    cases r with
    | none => exact Or.inl rfl
    | some km =>
      cases hd : st.deleteErr ("key-managers/" ++ name) with
      | some msg => left; simp [Storage.Delete, hd]
      | none => right; exact ⟨km, rfl, rfl, by simp [Storage.Delete, hd]⟩

/-! ## The data-model invariant -/

theorem derivedPair_newPair (c : Crypto) (seed : Bytes) (addr : String)
    (hl : seed.length = 32)
    (haddr : deriveTonAddress c (c.Public (c.newKeyFromSeed seed)) = .ok addr) :
    DerivedPair c (some (newPair c seed addr)) :=
  ⟨newPair c seed addr, seed, rfl, hl, rfl, rfl, haddr⟩

/-- The invariant restricted to the record of a service. -/
theorem Invariant.record (c : Crypto) (st : Storage) (hinv : Invariant c st) (svc : String)
    (km : KeyManager) (h : Entries.lookup ("key-managers/" ++ svc) st.entries = some (.json km)) :
    km.ServiceName = svc ∧ km.KeyPairs ≠ [] ∧ ∀ p ∈ km.KeyPairs, DerivedPair c p := by
  obtain ⟨svc', km', _, hk, hv, hn, hne, hp⟩ := hinv _ (Entries.lookup_mem _ _ _ h)
  simp only at hk hv
  have hsvc := path_injective _ _ hk
  cases hv
  subst hsvc
  exact ⟨hn, hne, hp⟩

theorem Invariant.create (c : Crypto) (st : Storage) (hinv : Invariant c st)
    (svc pk : String) (entropy : Except String Bytes) :
    Invariant c (createKeyManager c st svc pk entropy).2 := by
  rcases createKeyManager_cases c st svc pk entropy with h | ⟨r, seed, addr, hsvc, hr, hseed, haddr, hput⟩
  · rw [h.1]; exact hinv
  · rw [createKeyManager_ok c st svc pk entropy r seed addr hsvc hr hseed haddr hput]
    intro e he
    rcases Entries.mem_insert _ _ _ _ he with he | he
    · subst he
      have hl := createSeed_length pk entropy seed hseed
      refine ⟨svc, newRecord c r svc seed addr, hsvc, rfl, rfl, ?_, ?_, ?_⟩
      · cases r with
        | none => rfl
        | some km =>
          exact (Invariant.record c st hinv svc km (retrieveKeyManager_some st svc km hr).2).1
      · simp [newRecord]
      · intro p hp
        simp only [newRecord, List.mem_append, List.mem_singleton] at hp
        rcases hp with hp | hp
        · cases r with
          | none => simp [orInit] at hp
          | some km =>
            exact (Invariant.record c st hinv svc km
              (retrieveKeyManager_some st svc km hr).2).2.2 p hp
        · subst hp
          exact derivedPair_newPair c seed addr hl haddr
    · exact hinv e he

theorem Invariant.delete (c : Crypto) (st : Storage) (hinv : Invariant c st) (name : String) :
    Invariant c (deleteKeyManager st name).2 := by
  rcases deleteKeyManager_cases st name with h | ⟨km, _, _, h⟩
  · rw [h]; exact hinv
  · rw [h]
    intro e he
    exact hinv e (Entries.mem_erase _ _ _ he)

/-- Every reachable storage state satisfies the data-model invariant. -/
theorem Reachable.invariant (c : Crypto) (st : Storage) (h : Reachable c st) :
    Invariant c st := by
  induction h with
  | empty st h =>
    intro e he
    rw [h] at he
    cases he
  | call st call _ ih =>
    cases call with
    | create svc pk entropy => exact Invariant.create c st ih svc pk entropy
    | delete name => exact Invariant.delete c st ih name
  | faults st g p d l _ ih => exact ih

/-! ## Transfer payload and identifier (C2) -/

/-- The two transfer handlers compute the same response. -/
theorem transferJetton_eq_transferTon (c : Crypto) (st : Storage) (name jettonWallet : String) :
    transferJetton c st name jettonWallet = transferTon c st name := rfl

/-- The successful path of `transferTon`. -/
theorem transferTon_ok (c : Crypto) (st : Storage) (name : String) (resp : Option Response)
    (h : transferTon c st name = .ok resp) :
    ∃ (km : KeyManager) (kp0 : KeyPair) (rest : List (Option KeyPair)) (payload : Bytes),
      retrieveKeyManager st name = .ok (some km) ∧ km.KeyPairs = some kp0 :: rest ∧
      hex.DecodeString kp0.PrivateKey = .ok payload ∧
      resp = some { Data := [("signed_boc", .string (base64.EncodeToString payload)),
                             ("msg_id", .string (hex.EncodeToString (c.Sum256 payload)))] } := by
  unfold transferTon at h
  cases hr : retrieveKeyManager st name with
  | error e => simp [hr] at h
  | ok r =>
    cases r with
    | none => simp [hr] at h
    | some km =>
      cases hp : km.KeyPairs with
      | nil => simp [hr, hp] at h
      | cons p rest =>
        cases p with
        | none => simp [hr, hp] at h
        | some kp0 =>
          cases hd : hex.DecodeString kp0.PrivateKey with
          | error e => simp [hr, hp, hd] at h
          | ok payload =>
            simp only [hr, hp, hd, Outcome.ok.injEq] at h
            exact ⟨km, kp0, rest, payload, rfl, hp, hd, h.symm⟩

/-- C2, counterexample: on a record whose first pair stores the empty string as
`private_key`, `transferTon` succeeds with the empty `signed_boc`, whose
base64 decoding is empty. -/
theorem transferTon_empty_payload :
    transferTon demoCrypto
        (storageOf [("key-managers/svc", .json ⟨"svc", [some ⟨"", "", ""⟩]⟩)]) "svc" =
      .ok (some { Data := [("signed_boc", .string ""),
                           ("msg_id", .string (hex.EncodeToString (demoCrypto.Sum256 [])))] })
    ∧ base64.DecodeString "" = .ok [] := by
  decide

/-- C2 (amended): for every successful call of `transferTon` or
`transferJetton`, `msg_id` is the hex of the SHA-256 of the standard-base64
decoding of `signed_boc`, and that decoding is the hex decoding of the stored
`private_key` of `keyPairs[0]`, half as many bytes as that string has digits;
in every storage state reachable by `createKeyManager` and `deleteKeyManager`
calls from the empty storage it is a 32-byte seed, hence non-empty. -/
theorem transfer_msg_id_of_payload (c : Crypto) (st : Storage) (name jettonWallet : String)
    (resp : Option Response)
    (h : transferTon c st name = .ok resp ∨ transferJetton c st name jettonWallet = .ok resp) :
    ∃ (km : KeyManager) (kp0 : KeyPair) (rest : List (Option KeyPair))
        (signed_boc : String) (payload : Bytes),
      resp = some { Data := [("signed_boc", .string signed_boc),
                             ("msg_id", .string (hex.EncodeToString (c.Sum256 payload)))] } ∧
      base64.DecodeString signed_boc = .ok payload ∧
      retrieveKeyManager st name = .ok (some km) ∧ km.KeyPairs = some kp0 :: rest ∧
      hex.DecodeString kp0.PrivateKey = .ok payload ∧
      kp0.PrivateKey.data.length = 2 * payload.length ∧
      (Reachable c st → payload.length = 32 ∧ payload ≠ []) := by
  have h' : transferTon c st name = .ok resp := by
    rcases h with h | h
    · exact h
    · rw [← transferJetton_eq_transferTon c st name jettonWallet]; exact h
  obtain ⟨km, kp0, rest, payload, hr, hp, hd, hresp⟩ := transferTon_ok c st name resp h'
  refine ⟨km, kp0, rest, base64.EncodeToString payload, payload, hresp,
    base64.base64RoundTrip payload, hr, hp, hd, (hex.decode_ok _ _ hd).1, ?_⟩
  intro hreach
  have hrec := Invariant.record c st (Reachable.invariant c st hreach) name km
    (retrieveKeyManager_some st name km hr).2
  obtain ⟨kp, seed, hkp, hl, hpk, _, _⟩ := hrec.2.2 (some kp0) (by rw [hp]; exact List.mem_cons_self _ _)
  cases hkp
  rw [hpk, hex.hexRoundTrip] at hd
  cases hd
  refine ⟨hl, ?_⟩
  intro hnil
  rw [hnil] at hl
  cases hl

set_option maxRecDepth 100000 in
theorem transfer_msg_id_of_payload_witness :
    (transferTon demoCrypto storageAfterImport "svc" = .ok (some testTransferResponse)
      ∨ transferJetton demoCrypto storageAfterImport "svc" "w" = .ok (some testTransferResponse))
    ∧ ∃ (km : KeyManager) (kp0 : KeyPair) (rest : List (Option KeyPair))
        (signed_boc : String) (payload : Bytes),
      some testTransferResponse =
        some { Data := [("signed_boc", .string signed_boc),
                        ("msg_id", .string (hex.EncodeToString (demoCrypto.Sum256 payload)))] } ∧
      base64.DecodeString signed_boc = .ok payload ∧
      retrieveKeyManager storageAfterImport "svc" = .ok (some km) ∧
      km.KeyPairs = some kp0 :: rest ∧
      hex.DecodeString kp0.PrivateKey = .ok payload ∧
      kp0.PrivateKey.data.length = 2 * payload.length ∧
      (Reachable demoCrypto storageAfterImport → payload.length = 32 ∧ payload ≠ []) :=
  ⟨Or.inl (by decide),
    transfer_msg_id_of_payload demoCrypto storageAfterImport "svc" "w" (some testTransferResponse)
      (Or.inl (by decide))⟩

/-! ## Importing a seed (C3) -/

theorem hextable_getD_mem (n : Nat) (h : n < 16) : hex.hextable.getD n '0' ∈ hex.hextable := by
  interval_cases n <;> decide

/-- The hex encoder emits lower-case digits only. -/
theorem hex_encode_lower (bs : Bytes) : ∀ ch ∈ hex.encode bs, ch ∈ hex.hextable := by
  induction bs with
  | nil => intro ch h; cases h
  | cons v rest ih =>
    intro ch h
    have h1 : v.val / 16 < 16 := by have := v.isLt; omega
    have h2 : v.val % 16 < 16 := by omega
    simp only [hex.encode, List.mem_cons] at h
    rcases h with h | h | h
    · rw [h]; exact hextable_getD_mem _ h1
    · rw [h]; exact hextable_getD_mem _ h2
    · exact ih ch h

/-- Different byte strings have different hex encodings. -/
theorem hex_EncodeToString_injective (a b : Bytes)
    (h : hex.EncodeToString a = hex.EncodeToString b) : a = b := by
  have := congrArg hex.DecodeString h
  rw [hex.hexRoundTrip, hex.hexRoundTrip] at this
  cases this
  rfl

/-- After a successful `createKeyManager` the service's record is the stored
one. -/
theorem retrieve_after_create (c : Crypto) (st : Storage) (svc : String)
    (r : Option KeyManager) (seed : Bytes) (addr : String)
    (hr : retrieveKeyManager st svc = .ok r) :
    retrieveKeyManager
        { st with
          entries := Entries.insert ("key-managers/" ++ svc) (.json (newRecord c r svc seed addr))
            st.entries } svc =
      .ok (some (newRecord c r svc seed addr)) := by
  have hg : st.getErr ("key-managers/" ++ svc) = none := by
    cases r with
    | none => exact (retrieveKeyManager_none st svc hr).1
    | some km => exact (retrieveKeyManager_some st svc km hr).1
  rw [retrieveKeyManager_eq]
  simp only [hg, Entries.lookup_insert_self]

/-- C3, counterexample: when the record stored at `key-managers/svc` carries
another `service_name`, the response of `createKeyManager` for `svc` carries
that stored name, not `svc`. -/
theorem createKeyManager_service_name_of_record :
    (createKeyManager demoCrypto
        (storageOf [("key-managers/svc", .json ⟨"old", [some otherPair]⟩)])
        "svc" testSeedHex (.ok [])).1 =
      .ok (some { Data := [("service_name", .string "old"),
                           ("address", .string testPair.Address),
                           ("public_key", .string testPair.PublicKey)] }) := by
  decide

/-- C3 (amended): for a non-empty `svc` and a `privateKey` of exactly 64
hexadecimal digits decoding to `s`, when the read and the write of the storage
succeed and the address derivation returns, `createKeyManager` stores at
`key-managers/svc` the old record (or a fresh one) with one pair appended last:
`private_key` the lower-case hex of `s` (it decodes back to `s`, and differs
from the hex of the zeroed buffer unless `s` is all zero), `public_key` the hex
of the public key of `NewKeyFromSeed(s)`, `address` the derived address. The
response carries that pair's `address` and `public_key`, and as `service_name`
the name field of the stored record, which is `svc` when no record existed or
the storage is reachable from the empty storage. -/
theorem createKeyManager_import (c : Crypto) (st : Storage) (svc h : String)
    (entropy : Except String Bytes) (r : Option KeyManager) (s : Bytes) (addr : String)
    (hsvc : svc ≠ "") (hlen : h.data.length = 64) (hhex : h.data.all regexp.isHexClass = true)
    (hdec : hex.DecodeString h = .ok s)
    (hread : retrieveKeyManager st svc = .ok r)
    (hwrite : st.putErr ("key-managers/" ++ svc) = none)
    (haddr : deriveTonAddress c (c.Public (c.newKeyFromSeed s)) = .ok addr) :
    s.length = 32 ∧
    (createKeyManager c st svc h entropy).1 =
      .ok (some { Data := [("service_name", .string (orInit r svc).ServiceName),
                           ("address", .string addr),
                           ("public_key", .string
                             (hex.EncodeToString (c.Public (c.newKeyFromSeed s))))] }) ∧
    retrieveKeyManager (createKeyManager c st svc h entropy).2 svc =
      .ok (some { ServiceName := (orInit r svc).ServiceName
                  KeyPairs := (orInit r svc).KeyPairs ++
                    [some { PrivateKey := hex.EncodeToString s
                            PublicKey := hex.EncodeToString (c.Public (c.newKeyFromSeed s))
                            Address := addr }] }) ∧
    hex.DecodeString (hex.EncodeToString s) = .ok s ∧
    (∀ ch ∈ (hex.EncodeToString s).data, ch ∈ hex.hextable) ∧
    (s ≠ zeroSeed s → hex.EncodeToString s ≠ hex.EncodeToString (zeroSeed s)) ∧
    (r = none ∨ Reachable c st → (orInit r svc).ServiceName = svc) := by
  obtain ⟨s', hdec', hl, hseed⟩ := createSeed_import h entropy hlen hhex
  rw [hdec] at hdec'
  cases hdec'
  have hok := createKeyManager_ok c st svc h entropy r s addr hsvc hread hseed haddr hwrite
  refine ⟨hl, ?_, ?_, hex.hexRoundTrip s, ?_, ?_, ?_⟩
  · rw [hok]
  · rw [hok]
    exact retrieve_after_create c st svc r s addr hread
  · exact hex_encode_lower s
  · intro hne heq
    exact hne (hex_EncodeToString_injective _ _ heq)
  · intro hcase
    cases r with
    | none => rfl
    | some km =>
      rcases hcase with hcase | hcase
      · cases hcase
      · exact (Invariant.record c st (Reachable.invariant c st hcase) svc km
          (retrieveKeyManager_some st svc km hread).2).1

set_option maxRecDepth 100000 in
theorem createKeyManager_import_witness :
    ("svc" ≠ "" ∧ testSeedHex.data.length = 64 ∧
      testSeedHex.data.all regexp.isHexClass = true ∧
      hex.DecodeString testSeedHex = .ok testSeed ∧
      retrieveKeyManager emptyStorage "svc" = .ok none ∧
      emptyStorage.putErr ("key-managers/" ++ "svc") = none ∧
      deriveTonAddress demoCrypto (demoCrypto.Public (demoCrypto.newKeyFromSeed testSeed)) =
        .ok testPair.Address) ∧
    (createKeyManager demoCrypto emptyStorage "svc" testSeedHex (.ok [])).1 =
      .ok (some { Data := [("service_name", .string "svc"),
                           ("address", .string testPair.Address),
                           ("public_key", .string (hex.EncodeToString
                             (demoCrypto.Public (demoCrypto.newKeyFromSeed testSeed))))] }) ∧
    retrieveKeyManager (createKeyManager demoCrypto emptyStorage "svc" testSeedHex (.ok [])).2
        "svc" =
      .ok (some { ServiceName := "svc"
                  KeyPairs := [] ++
                    [some { PrivateKey := hex.EncodeToString testSeed
                            PublicKey := hex.EncodeToString
                              (demoCrypto.Public (demoCrypto.newKeyFromSeed testSeed))
                            Address := testPair.Address }] }) :=
  ⟨⟨by decide, by decide, by decide, by decide, by decide, rfl, by decide⟩,
    (createKeyManager_import demoCrypto emptyStorage "svc" testSeedHex (.ok []) none testSeed
      testPair.Address (by decide) (by decide) (by decide) (by decide) (by decide) rfl
      (by decide)).2.1,
    (createKeyManager_import demoCrypto emptyStorage "svc" testSeedHex (.ok []) none testSeed
      testPair.Address (by decide) (by decide) (by decide) (by decide) (by decide) rfl
      (by decide)).2.2.1⟩

/-! ## Malformed seeds (C4) -/

/-- C4, counterexample: the empty `privateKey` is not 64 hexadecimal digits,
yet `createKeyManager` succeeds on it, with a generated seed, and stores a key
pair; and when the read of the storage fails, a malformed `privateKey` is
answered with the storage error, the record being read before the seed is
checked. -/
theorem createKeyManager_empty_seed_generates :
    (createKeyManager demoCrypto emptyStorage "svc" "" (.ok testSeed)).1 =
        .ok (some { Data := [("service_name", .string "svc"),
                             ("address", .string testPair.Address),
                             ("public_key", .string testPair.PublicKey)] })
    ∧ (createKeyManager demoCrypto emptyStorage "svc" "" (.ok testSeed)).2.entries =
        [("key-managers/svc", .json ⟨"svc", [some testPair]⟩)]
    ∧ (createKeyManager demoCrypto (unreadableStorage "sealed") "svc" "xyz" (.ok testSeed)).1 =
        .error (.storage "sealed") := by
  decide

/-- C4 (amended): for a non-empty `serviceName` and a non-empty `privateKey`
that is not exactly 64 hexadecimal digits, `createKeyManager` leaves the storage
as it was and fails: with the validation error "privateKey must be 32-byte hex"
when the record read succeeds, with the error of the read when it fails. -/
theorem createKeyManager_rejects_malformed_seed (c : Crypto) (st : Storage) (svc pk : String)
    (entropy : Except String Bytes) (hsvc : svc ≠ "") (hpk : pk ≠ "")
    (hbad : ¬(pk.data.length = 64 ∧ pk.data.all regexp.isHexClass = true)) :
    (createKeyManager c st svc pk entropy).2 = st ∧
    (∀ r, retrieveKeyManager st svc = .ok r →
      (createKeyManager c st svc pk entropy).1 = .error .privateKeyNot32ByteHex) ∧
    Error.kind .privateKeyNot32ByteHex = .ValidationError ∧
    (∀ e, retrieveKeyManager st svc = .error e →
      (createKeyManager c st svc pk entropy).1 = .error e) := by
  have hseed := createSeed_reject pk entropy hpk hbad
  cases hr : retrieveKeyManager st svc with
  | error e =>
    refine ⟨?_, ?_, rfl, ?_⟩
    · simp [createKeyManager, deferZeroSeed, hsvc, hr]
    · intro r h; cases h
    · intro e' h; cases h; simp [createKeyManager, deferZeroSeed, hsvc, hr]
  | ok r =>
    refine ⟨?_, ?_, rfl, ?_⟩
    · simp [createKeyManager, deferZeroSeed, hsvc, hr, hseed]
    · intro r' _; simp [createKeyManager, deferZeroSeed, hsvc, hr, hseed]
    · intro e h; cases h

set_option maxRecDepth 100000 in
theorem createKeyManager_rejects_malformed_seed_witness :
    ("svc" ≠ "" ∧ testSeedHex ++ "\n" ≠ "" ∧
      ¬((testSeedHex ++ "\n").data.length = 64 ∧
        (testSeedHex ++ "\n").data.all regexp.isHexClass = true)) ∧
    (createKeyManager demoCrypto storageAfterImport "svc" (testSeedHex ++ "\n") (.ok [])).2 =
      storageAfterImport ∧
    (∀ r, retrieveKeyManager storageAfterImport "svc" = .ok r →
      (createKeyManager demoCrypto storageAfterImport "svc" (testSeedHex ++ "\n") (.ok [])).1 =
        .error .privateKeyNot32ByteHex) :=
  ⟨⟨by decide, by decide, by decide⟩,
    (createKeyManager_rejects_malformed_seed demoCrypto storageAfterImport "svc"
      (testSeedHex ++ "\n") (.ok []) (by decide) (by decide) (by decide)).1,
    (createKeyManager_rejects_malformed_seed demoCrypto storageAfterImport "svc"
      (testSeedHex ++ "\n") (.ok []) (by decide) (by decide) (by decide)).2.1⟩

/-! ## Malformed hashes (C5) -/

/-- C5: when the record of a service is stored and well formed (its first
pair is present and holds the hex of a 32-byte seed), a `hash` that is not
valid hex, or whose decoding is not 32 bytes long, makes `signHash` fail with a
validation error ("invalid hash hex" or "hash must be 32 bytes") and return no
signature; the empty string, which decodes to zero bytes, is such a hash. -/
theorem signHash_rejects_bad_hash (c : Crypto) (st : Storage) (name hash : String)
    (km : KeyManager) (kp0 : KeyPair) (rest : List (Option KeyPair)) (s0 : Bytes)
    (hget : st.Get ("key-managers/" ++ name) =
      .ok (some { Key := "key-managers/" ++ name, Value := .json km }))
    (hpairs : km.KeyPairs = some kp0 :: rest)
    (hseed : hex.DecodeString kp0.PrivateKey = .ok s0) (hs0 : s0.length = 32)
    (hbad : (∃ e, hex.DecodeString hash = .error e) ∨
      (∃ d, hex.DecodeString hash = .ok d ∧ d.length ≠ 32)) :
    (∃ e, signHash c st name hash = .error e ∧ e.kind = .ValidationError ∧
      ((∃ cause, hex.DecodeString hash = .error cause ∧ e = .invalidHashHex cause) ∨
        (∃ d, hex.DecodeString hash = .ok d ∧ e = .hashLength d.length))) ∧
    signHash c st name "" = .error (.hashLength 0) := by
  have hr := retrieveKeyManager_of_get st name km hget
  have key : ∀ hash', signHash c st name hash' =
      match hex.DecodeString hash' with
      | .error err => .error (.invalidHashHex err)
      | .ok hashBytes =>
        if hashBytes.length ≠ 32 then .error (.hashLength hashBytes.length)
        else
          match ed25519.Sign c (c.newKeyFromSeed s0) hashBytes with
          | .error err => .error err
          | .panic p => .panic p
          | .ok sig => .ok (some { Data := [("signature", .string (hex.EncodeToString sig))] }) := by
    intro hash'
    simp only [signHash, deferZeroSeed, hr, hpairs, hseed, ed25519.NewKeyFromSeed, ed25519.SeedSize, hs0,
      ne_eq, not_true_eq_false, if_false]
  refine ⟨?_, ?_⟩
  · rcases hbad with ⟨e, he⟩ | ⟨d, hd, hlen⟩
    · exact ⟨.invalidHashHex e, by rw [key, he], rfl, Or.inl ⟨e, he, rfl⟩⟩
    · refine ⟨.hashLength d.length, ?_, rfl, Or.inr ⟨d, hd, rfl⟩⟩
      rw [key, hd]
      simp only [ne_eq, hlen, not_false_eq_true, if_true]
  · rw [key]
    rfl

set_option maxRecDepth 100000 in
theorem signHash_rejects_bad_hash_witness :
    (storageAfterImport.Get ("key-managers/" ++ "svc") =
        .ok (some { Key := "key-managers/" ++ "svc", Value := .json ⟨"svc", [some testPair]⟩ })
      ∧ hex.DecodeString testPair.PrivateKey = .ok testSeed ∧ testSeed.length = 32
      ∧ hex.DecodeString "00ff" = .ok [0, 255]) ∧
    (∃ e, signHash demoCrypto storageAfterImport "svc" "00ff" = .error e ∧
      e.kind = .ValidationError ∧
      ((∃ cause, hex.DecodeString "00ff" = .error cause ∧ e = .invalidHashHex cause) ∨
        (∃ d, hex.DecodeString "00ff" = .ok d ∧ e = .hashLength d.length))) :=
  ⟨⟨by decide, by decide, by decide, by decide⟩,
    (signHash_rejects_bad_hash demoCrypto storageAfterImport "svc" "00ff"
      ⟨"svc", [some testPair]⟩ testPair [] testSeed (by decide) rfl (by decide) (by decide)
      (Or.inr ⟨[0, 255], by decide, by decide⟩)).1⟩

/-! ## Absent records (C6) -/

/-- C6: when nothing is stored at `key-managers/<name>`, `signHash` (for any
hash), `transferTon`, `transferJetton` and `readKeyManager` fail with the
not-found error, and `deleteKeyManager` returns without error and leaves the
storage as it was. -/
theorem absent_record_not_found (c : Crypto) (st : Storage) (name hash jettonWallet : String)
    (habsent : st.Get ("key-managers/" ++ name) = .ok none) :
    signHash c st name hash = .error (.keyManagerNotFound name) ∧
    transferTon c st name = .error (.keyManagerNotFound name) ∧
    transferJetton c st name jettonWallet = .error (.keyManagerNotFound name) ∧
    readKeyManager st name = .error (.keyManagerNotFound name) ∧
    (Error.keyManagerNotFound name).kind = .NotFoundError ∧
    deleteKeyManager st name = (.ok none, st) := by
  have hr := retrieveKeyManager_of_get_none st name habsent
  refine ⟨?_, ?_, ?_, ?_, rfl, ?_⟩
  · simp only [signHash, hr]
  · simp only [transferTon, hr]
  · simp only [transferJetton, hr]
  · simp only [readKeyManager, hr]
  · simp only [deleteKeyManager, hr]

set_option maxRecDepth 100000 in
theorem absent_record_not_found_witness :
    storageAfterImport.Get ("key-managers/" ++ "nobody") = .ok none ∧
    (signHash demoCrypto storageAfterImport "nobody" "zz" =
        .error (.keyManagerNotFound "nobody") ∧
      transferTon demoCrypto storageAfterImport "nobody" = .error (.keyManagerNotFound "nobody") ∧
      transferJetton demoCrypto storageAfterImport "nobody" "w" =
        .error (.keyManagerNotFound "nobody") ∧
      readKeyManager storageAfterImport "nobody" = .error (.keyManagerNotFound "nobody") ∧
      (Error.keyManagerNotFound "nobody").kind = .NotFoundError ∧
      deleteKeyManager storageAfterImport "nobody" = (.ok none, storageAfterImport)) :=
  ⟨by decide,
    absent_record_not_found demoCrypto storageAfterImport "nobody" "zz" "w" (by decide)⟩

/-! ## Successful calls -/

/-- A call of `createKeyManager` that returns a response took the successful
path. -/
theorem createKeyManager_success (c : Crypto) (st : Storage) (svc pk : String)
    (entropy : Except String Bytes) (resp : Option Response)
    (h : (createKeyManager c st svc pk entropy).1 = .ok resp) :
    ∃ (r : Option KeyManager) (seed : Bytes) (addr : String), svc ≠ "" ∧
      retrieveKeyManager st svc = .ok r ∧ seed.length = 32 ∧
      deriveTonAddress c (c.Public (c.newKeyFromSeed seed)) = .ok addr ∧
      createKeyManager c st svc pk entropy =
        (.ok (some { Data := [("service_name", .string (orInit r svc).ServiceName),
                              ("address", .string addr),
                              ("public_key", .string
                                (hex.EncodeToString (c.Public (c.newKeyFromSeed seed))))] }),
         { st with
           entries := Entries.insert ("key-managers/" ++ svc)
             (.json (newRecord c r svc seed addr)) st.entries }) := by
  rcases createKeyManager_cases c st svc pk entropy with hc | ⟨r, seed, addr, hsvc, hr, hseed, haddr, hput⟩
  · exact absurd h (hc.2 resp)
  · exact ⟨r, seed, addr, hsvc, hr, createSeed_length pk entropy seed hseed, haddr,
      createKeyManager_ok c st svc pk entropy r seed addr hsvc hr hseed haddr hput⟩

/-- Writing or erasing one service's path does not change what is retrieved
for another service. -/
theorem retrieve_other (st : Storage) (es : List (String × Value)) (other : String)
    (h : Entries.lookup ("key-managers/" ++ other) es =
      Entries.lookup ("key-managers/" ++ other) st.entries) :
    retrieveKeyManager { st with entries := es } other = retrieveKeyManager st other := by
  rw [retrieveKeyManager_eq, retrieveKeyManager_eq]
  simp only [h]

/-! ## Reachable states hold no empty record (C8) -/

/-- On a state satisfying the invariant, a stored record starts with a pair
holding the hex of a 32-byte seed. -/
theorem Invariant.first_pair (c : Crypto) (st : Storage) (hinv : Invariant c st) (name : String)
    (km : KeyManager) (hr : retrieveKeyManager st name = .ok (some km)) :
    ∃ (kp0 : KeyPair) (rest : List (Option KeyPair)) (seed : Bytes),
      km.KeyPairs = some kp0 :: rest ∧ hex.DecodeString kp0.PrivateKey = .ok seed ∧
      seed.length = 32 := by
  obtain ⟨_, hne, hall⟩ := Invariant.record c st hinv name km (retrieveKeyManager_some st name km hr).2
  cases hp : km.KeyPairs with
  | nil => exact absurd hp hne
  | cons p rest =>
    obtain ⟨kp, seed, hkp, hl, hpk, _, _⟩ := hall p (by rw [hp]; exact List.mem_cons_self _ _)
    subst hkp
    exact ⟨kp, rest, seed, rfl, by rw [hpk, hex.hexRoundTrip], hl⟩

/-- C8: in every storage state reachable from the empty storage by
`createKeyManager` and `deleteKeyManager` calls, successful or failing, every
stored entry is a record with a non-empty `KeyPairs`; so every record the
handlers retrieve has a first pair, and `signHash`, `transferTon` and
`transferJetton` never panic there, on the index `KeyPairs[0]` or otherwise. -/
theorem reachable_keyPairs_nonempty (c : Crypto) (st : Storage) (h : Reachable c st) :
    (∀ e ∈ st.entries, ∃ km, e.2 = .json km ∧ km.KeyPairs ≠ []) ∧
    (∀ name km, retrieveKeyManager st name = .ok (some km) →
      ∃ kp0 rest, km.KeyPairs = some kp0 :: rest) ∧
    (∀ name hash jettonWallet p, signHash c st name hash ≠ .panic p ∧
      transferTon c st name ≠ .panic p ∧ transferJetton c st name jettonWallet ≠ .panic p) := by
  have hinv := Reachable.invariant c st h
  refine ⟨?_, ?_, ?_⟩
  · intro e he
    obtain ⟨_, km, _, _, hv, _, hne, _⟩ := hinv e he
    exact ⟨km, hv, hne⟩
  · intro name km hr
    obtain ⟨kp0, rest, _, hp, _, _⟩ := Invariant.first_pair c st hinv name km hr
    exact ⟨kp0, rest, hp⟩
  · intro name hash jettonWallet p
    have ht : transferTon c st name ≠ .panic p := by
      unfold transferTon
      cases hr : retrieveKeyManager st name with
      | error e => simp
      | ok r =>
        cases r with
        | none => simp
        | some km =>
          obtain ⟨kp0, rest, seed, hp, hd, _⟩ := Invariant.first_pair c st hinv name km hr
          simp [hp, hd]
    refine ⟨?_, ht, ht⟩
    unfold signHash deferZeroSeed
    cases hr : retrieveKeyManager st name with
    | error e => simp
    | ok r =>
      cases r with
      | none => simp
      | some km =>
        obtain ⟨kp0, rest, seed, hp, hd, hl⟩ := Invariant.first_pair c st hinv name km hr
        have hk := c.privateKeySize seed hl
        cases hh : hex.DecodeString hash with
        | error e => simp [hp, hd, hh, ed25519.NewKeyFromSeed, ed25519.SeedSize, hl]
        | ok hashBytes =>
          by_cases h32 : hashBytes.length = 32
          · simp [hp, hd, hh, ed25519.NewKeyFromSeed, ed25519.SeedSize, hl, h32, ed25519.Sign,
              ed25519.PrivateKeySize, hk]
          · simp [hp, hd, hh, ed25519.NewKeyFromSeed, ed25519.SeedSize, hl, h32]

set_option maxRecDepth 100000 in
theorem reachable_keyPairs_nonempty_witness :
    Reachable demoCrypto storageAfterImport ∧
    (∀ e ∈ storageAfterImport.entries, ∃ km, e.2 = .json km ∧ km.KeyPairs ≠ []) ∧
    storageAfterImport.entries = [("key-managers/svc", .json ⟨"svc", [some testPair]⟩)] :=
  ⟨Reachable.call emptyStorage (.create "svc" testSeedHex (.ok [])) (Reachable.empty _ rfl),
    (reachable_keyPairs_nonempty demoCrypto storageAfterImport
      (Reachable.call emptyStorage (.create "svc" testSeedHex (.ok []))
        (Reachable.empty _ rfl))).1,
    by decide⟩

/-! ## What a creation changes (C9) -/

/-- C9: a successful `createKeyManager` for `svc` stores for `svc` the pairs
that were stored before, at the same indices, followed by exactly one new
pair, and leaves what is stored for every other service (and at every other
path) as it was. -/
theorem createKeyManager_appends (c : Crypto) (st : Storage) (svc pk : String)
    (entropy : Except String Bytes) (resp : Option Response)
    (hok : (createKeyManager c st svc pk entropy).1 = .ok resp) :
    ∃ (r : Option KeyManager) (km' : KeyManager) (kp : KeyPair),
      retrieveKeyManager st svc = .ok r ∧
      retrieveKeyManager (createKeyManager c st svc pk entropy).2 svc = .ok (some km') ∧
      km'.KeyPairs = pairsOf r ++ [some kp] ∧
      km'.KeyPairs.length = (pairsOf r).length + 1 ∧
      (∀ i, i < (pairsOf r).length → km'.KeyPairs[i]? = (pairsOf r)[i]?) ∧
      (pairsOf r ≠ [] → km'.KeyPairs.head? = (pairsOf r).head?) ∧
      (∀ other, other ≠ svc →
        retrieveKeyManager (createKeyManager c st svc pk entropy).2 other =
          retrieveKeyManager st other) ∧
      (∀ p, p ≠ "key-managers/" ++ svc →
        Entries.lookup p (createKeyManager c st svc pk entropy).2.entries =
          Entries.lookup p st.entries) := by
  obtain ⟨r, seed, addr, _, hr, _, _, hform⟩ := createKeyManager_success c st svc pk entropy resp hok
  have hpairs : (newRecord c r svc seed addr).KeyPairs = pairsOf r ++ [some (newPair c seed addr)] := by
    cases r <;> rfl
  refine ⟨r, newRecord c r svc seed addr, newPair c seed addr, hr, ?_, hpairs, ?_, ?_, ?_, ?_, ?_⟩
  · rw [hform]
    exact retrieve_after_create c st svc r seed addr hr
  · rw [hpairs]; simp
  · intro i hi
    rw [hpairs, List.getElem?_append_left hi]
  · intro hne
    rw [hpairs]
    cases hp : pairsOf r with
    | nil => exact absurd hp hne
    | cons a l => rfl
  · intro other hne
    rw [hform]
    apply retrieve_other st _ other
    exact Entries.lookup_insert_of_ne _ _ _ _ (fun h => hne (path_injective _ _ h))
  · intro p hne
    rw [hform]
    exact Entries.lookup_insert_of_ne _ _ _ _ hne

set_option maxRecDepth 100000 in
theorem createKeyManager_appends_witness :
    (createKeyManager demoCrypto storageAfterImport "svc" "" (.ok [7, 7])).1 =
      .ok (some { Data := [("service_name", .string "svc"),
        ("address", .string "0:0808010101010101010101010101010101010101010101010101010101010101"),
        ("public_key", .string "0808010101010101010101010101010101010101010101010101010101010101")] })
    ∧ ∃ (r : Option KeyManager) (km' : KeyManager) (kp : KeyPair),
      retrieveKeyManager storageAfterImport "svc" = .ok r ∧
      retrieveKeyManager (createKeyManager demoCrypto storageAfterImport "svc" "" (.ok [7, 7])).2
        "svc" = .ok (some km') ∧
      km'.KeyPairs = pairsOf r ++ [some kp] ∧
      km'.KeyPairs.length = (pairsOf r).length + 1 ∧
      (∀ i, i < (pairsOf r).length → km'.KeyPairs[i]? = (pairsOf r)[i]?) ∧
      (pairsOf r ≠ [] → km'.KeyPairs.head? = (pairsOf r).head?) ∧
      (∀ other, other ≠ "svc" →
        retrieveKeyManager
            (createKeyManager demoCrypto storageAfterImport "svc" "" (.ok [7, 7])).2 other =
          retrieveKeyManager storageAfterImport other) ∧
      (∀ p, p ≠ "key-managers/" ++ "svc" →
        Entries.lookup p
            (createKeyManager demoCrypto storageAfterImport "svc" "" (.ok [7, 7])).2.entries =
          Entries.lookup p storageAfterImport.entries) :=
  ⟨by decide,
    createKeyManager_appends demoCrypto storageAfterImport "svc" "" (.ok [7, 7])
      (some { Data := [("service_name", .string "svc"),
        ("address", .string "0:0808010101010101010101010101010101010101010101010101010101010101"),
        ("public_key", .string "0808010101010101010101010101010101010101010101010101010101010101")] })
      (by decide)⟩

/-! ## Listing -/

namespace Entries

theorem mem_insert_self (k : String) (v : Value) (es : List (String × Value)) :
    (k, v) ∈ insert k v es := by
  induction es with
  | nil => simp [insert]
  | cons e es ih =>
    obtain ⟨k₁, v₁⟩ := e
    by_cases h₁ : k₁ = k
    · simp [insert, h₁]
    · simp only [insert, h₁, if_false]
      exact List.mem_cons_of_mem _ ih

theorem insert_insert (k : String) (v w : Value) (es : List (String × Value)) :
    insert k w (insert k v es) = insert k w es := by
  induction es with
  | nil => simp [insert]
  | cons e es ih =>
    obtain ⟨k₁, v₁⟩ := e
    by_cases h₁ : k₁ = k
    · simp [insert, h₁]
    · simp [insert, h₁, ih]

theorem takeWhile_no_slash (x : List Char) (h : '/' ∉ x) :
    x.takeWhile (fun c => decide (c ≠ '/')) = x := by
  induction x with
  | nil => rfl
  | cons a x ih =>
    simp only [List.mem_cons, not_or] at h
    have ha : a ≠ '/' := fun e => h.1 e.symm
    simp only [List.takeWhile_cons, ne_eq, ha, not_false_eq_true, decide_True, if_true, ih h.2]

theorem takeWhile_length_lt (x : List Char) (h : '/' ∈ x) :
    (x.takeWhile (fun c => decide (c ≠ '/'))).length < x.length := by
  induction x with
  | nil => cases h
  | cons a x ih =>
    by_cases ha : a = '/'
    · simp [List.takeWhile_cons, ha]
    · have hx : '/' ∈ x := by
        rcases List.mem_cons.mp h with h | h
        · exact absurd h.symm ha
        · exact h
      simp only [List.takeWhile_cons, ne_eq, ha, not_false_eq_true, decide_True, if_true,
        List.length_cons]
      exact Nat.succ_lt_succ (ih hx)

/-- The name under which a key below the prefix is listed. -/
theorem childName_append (pfx x : List Char) :
    childName pfx (pfx ++ x) =
      if '/' ∈ x then some (x.takeWhile (fun c => decide (c ≠ '/')) ++ ['/']) else some x := by
  have hp : pfx.isPrefixOf (pfx ++ x) = true :=
    List.isPrefixOf_iff_prefix.mpr (List.prefix_append pfx x)
  simp only [childName, hp, if_true, List.drop_left]
  by_cases h : '/' ∈ x
  · have := takeWhile_length_lt x h
    simp only [h, if_true, Nat.ne_of_lt this, if_false]
  · simp only [h, if_false, takeWhile_no_slash x h, if_true]

/-- A key is listed only if it lies below the prefix. -/
theorem childName_some (pfx key n : List Char) (h : childName pfx key = some n) :
    ∃ x, key = pfx ++ x ∧ childName pfx (pfx ++ x) = some n := by
  by_cases hp : pfx.isPrefixOf key = true
  · obtain ⟨x, hx⟩ := List.isPrefixOf_iff_prefix.mp hp
    exact ⟨x, hx.symm, by rw [hx]; exact h⟩
  · simp [childName, hp] at h

/-- A name without `/` is listed exactly for the key made of the prefix and
that name. -/
theorem childName_eq_name (pfx key n : List Char) (hn : '/' ∉ n)
    (h : childName pfx key = some n) : key = pfx ++ n := by
  obtain ⟨x, hk, hx⟩ := childName_some pfx key n h
  rw [childName_append] at hx
  by_cases hs : '/' ∈ x
  · simp only [hs, if_true, Option.some.injEq] at hx
    exact absurd (by rw [← hx]; simp) hn
  · simp only [hs, if_false, Option.some.injEq] at hx
    rw [hk, hx]

end Entries

/-- The names `Storage.List` returns below `key-managers/`. -/
theorem list_ok (st : Storage) (keys : List String)
    (h : st.List "key-managers/" = .ok keys) :
    keys = (st.entries.filterMap fun e =>
      (Entries.childName "key-managers/".data e.1.data).map String.mk).dedup := by
  unfold Storage.List at h
  cases hl : st.listErr "key-managers/" with
  | some msg => simp [hl] at h
  | none =>
    simp only [hl, Except.ok.injEq] at h
    exact h.symm

/-- A service whose name has no `/` is listed exactly when its path is stored. -/
theorem mem_list_iff (st : Storage) (keys : List String) (svc : String)
    (h : st.List "key-managers/" = .ok keys) (hs : '/' ∉ svc.data) :
    svc ∈ keys ↔ ∃ v, ("key-managers/" ++ svc, v) ∈ st.entries := by
  rw [list_ok st keys h, List.mem_dedup, List.mem_filterMap]
  constructor
  · rintro ⟨⟨k, v⟩, he, hc⟩
    simp only [Option.map_eq_some'] at hc
    obtain ⟨n, hn, hmk⟩ := hc
    have hn' : n = svc.data := by rw [← hmk]
    subst hn'
    have hk := Entries.childName_eq_name _ _ _ hs hn
    have : k = "key-managers/" ++ svc := String.ext (by rw [hk, String.data_append])
    exact ⟨v, this ▸ he⟩
  · rintro ⟨v, he⟩
    refine ⟨("key-managers/" ++ svc, v), he, ?_⟩
    simp only [String.data_append, Entries.childName_append, hs, if_false, Option.map_some']

/-! ## Creating, then reading and listing (C7) -/

theorem collectAddresses_map_some (kps : List KeyPair) :
    collectAddresses (kps.map some) = .ok (kps.map fun kp => kp.Address) := by
  induction kps with
  | nil => rfl
  | cons kp rest ih => simp only [List.map_cons, collectAddresses, ih]

theorem pairsOf_eq (r : Option KeyManager) (svc : String) :
    (orInit r svc).KeyPairs = pairsOf r := by
  cases r <;> rfl

/-- Successive successful creations for one service: the storage ends with
the service's record extended by one pair per call, in call order, and each
call returned the address of its pair. -/
theorem createAll_spec (c : Crypto) (svc : String) :
    ∀ (more : List (String × Except String Bytes)) (first : String × Except String Bytes)
      (st : Storage) (r : Option KeyManager),
      retrieveKeyManager st svc = .ok r →
      (∀ o ∈ (createAll c svc st (first :: more)).1, ∃ resp, o = .ok resp) →
      ∃ newPairs : List KeyPair,
        newPairs.length = (first :: more).length ∧
        (createAll c svc st (first :: more)).1.map addressOf =
          newPairs.map (fun kp => some kp.Address) ∧
        (createAll c svc st (first :: more)).2 =
          { st with
            entries := Entries.insert ("key-managers/" ++ svc)
              (.json { ServiceName := (orInit r svc).ServiceName
                       KeyPairs := pairsOf r ++ newPairs.map some }) st.entries } := by
  intro more
  induction more with
  | nil =>
    intro first st r hr hok
    obtain ⟨pk, entropy⟩ := first
    simp only [createAll, List.mem_singleton, forall_eq] at hok
    obtain ⟨resp, hresp⟩ := hok
    obtain ⟨r', seed, addr, _, hr', _, _, hform⟩ :=
      createKeyManager_success c st svc pk entropy resp hresp
    rw [hr] at hr'
    cases hr'
    refine ⟨[newPair c seed addr], rfl, ?_, ?_⟩
    · simp [createAll, hform, addressOf, Response.get, newPair]
    · simp only [createAll, hform, newRecord, pairsOf_eq, List.map_cons, List.map_nil]
  | cons second more ih =>
    intro first st r hr hok
    obtain ⟨pk, entropy⟩ := first
    have hok1 : ∃ resp, (createKeyManager c st svc pk entropy).1 = .ok resp :=
      hok _ (by simp [createAll])
    obtain ⟨resp, hresp⟩ := hok1
    obtain ⟨r', seed, addr, _, hr', _, _, hform⟩ :=
      createKeyManager_success c st svc pk entropy resp hresp
    rw [hr] at hr'
    cases hr'
    have hr1 := retrieve_after_create c st svc r seed addr hr
    have hok2 : ∀ o ∈ (createAll c svc (createKeyManager c st svc pk entropy).2
        (second :: more)).1, ∃ resp, o = .ok resp := by
      intro o ho
      apply hok o
      rw [createAll]
      exact List.mem_cons_of_mem _ ho
    rw [hform] at hok2
    obtain ⟨newPairs, hlen, haddrs, hfinal⟩ := ih second _ _ hr1 hok2
    refine ⟨newPair c seed addr :: newPairs, by simp [hlen], ?_, ?_⟩
    · rw [createAll, List.map_cons, List.map_cons]
      simp only [hform] at haddrs ⊢
      rw [haddrs]
      simp [addressOf, Response.get, newPair]
    · rw [createAll]
      simp only [hform] at hfinal ⊢
      rw [hfinal]
      cases r <;>
        simp only [Entries.insert_insert, orInit, newRecord, pairsOf, List.map_cons,
          List.append_assoc, List.singleton_append]

/-- C7, counterexample: after an import and a generation for the service
`a/b`, both successful, the listing is `a/`; the service name `a/b` is not in
it, while the record holds two pairs. -/
theorem list_after_creates_with_slash :
    (createAll demoCrypto "a/b" emptyStorage [(testSeedHex, .ok []), ("", .ok [7, 7])]).1.all
        Outcome.isOk = true
    ∧ (createAll demoCrypto "a/b" emptyStorage [(testSeedHex, .ok []), ("", .ok [7, 7])]).1.map
        addressOf =
      [some testPair.Address,
       some "0:0808010101010101010101010101010101010101010101010101010101010101"]
    ∧ listKeyManagers
        (createAll demoCrypto "a/b" emptyStorage [(testSeedHex, .ok []), ("", .ok [7, 7])]).2 =
      .ok (some { Data := [("keys", .strings ["a/"])] })
    ∧ List.count "a/b" ["a/"] = 0 := by
  decide

/-- C7 (amended): when nothing is stored for `svc` and one or more
`createKeyManager` calls for `svc` all succeed (an import and a generation, or
any `n` calls), `readKeyManager(svc)` returns exactly the addresses those calls
returned, one per call and in call order; and when `svc` contains no `/`, the
listing contains `svc` exactly once. -/
theorem creates_then_read_and_list (c : Crypto) (st : Storage) (svc : String)
    (first : String × Except String Bytes) (more : List (String × Except String Bytes))
    (habsent : st.Get ("key-managers/" ++ svc) = .ok none)
    (hok : (createAll c svc st (first :: more)).1.all Outcome.isOk = true)
    (hlist : st.listErr "key-managers/" = none) :
    ∃ (addrs keys : List String),
      addrs.length = (first :: more).length ∧
      (createAll c svc st (first :: more)).1.map addressOf = addrs.map some ∧
      readKeyManager (createAll c svc st (first :: more)).2 svc =
        .ok (some { Data := [("service_name", .string svc), ("addresses", .strings addrs)] }) ∧
      listKeyManagers (createAll c svc st (first :: more)).2 = .ok (some (ListResponse keys)) ∧
      ('/' ∉ svc.data → keys.count svc = 1) := by
  have hr := retrieveKeyManager_of_get_none st svc habsent
  have hok' : ∀ o ∈ (createAll c svc st (first :: more)).1, ∃ resp, o = .ok resp := by
    intro o ho
    have := List.all_eq_true.mp hok o ho
    cases o with
    | ok resp => exact ⟨resp, rfl⟩
    | error e => cases this
    | panic p => cases this
  obtain ⟨newPairs, hlen, haddrs, hfinal⟩ := createAll_spec c svc more first st none hr hok'
  have hg := (retrieveKeyManager_none st svc hr).1
  have hlist' : (createAll c svc st (first :: more)).2.listErr "key-managers/" = none := by
    rw [hfinal]; exact hlist
  have hL : (createAll c svc st (first :: more)).2.List "key-managers/" =
      .ok (((createAll c svc st (first :: more)).2.entries.filterMap fun e =>
        (Entries.childName "key-managers/".data e.1.data).map String.mk).dedup) := by
    simp only [Storage.List, hlist']
  refine ⟨newPairs.map (fun kp => kp.Address),
    ((createAll c svc st (first :: more)).2.entries.filterMap fun e =>
      (Entries.childName "key-managers/".data e.1.data).map String.mk).dedup,
    by simp [hlen], ?_, ?_, ?_, ?_⟩
  · rw [haddrs, List.map_map]
    rfl
  · have hret : retrieveKeyManager (createAll c svc st (first :: more)).2 svc =
        .ok (some { ServiceName := svc, KeyPairs := newPairs.map some }) := by
      rw [hfinal, retrieveKeyManager_eq]
      simp only [hg, Entries.lookup_insert_self, orInit, pairsOf, List.nil_append]
    simp only [readKeyManager, hret, collectAddresses_map_some]
  · simp only [listKeyManagers, hL]
  · intro hs
    apply List.count_eq_one_of_mem (List.nodup_dedup _)
    rw [(mem_list_iff _ _ svc hL hs)]
    rw [hfinal]
    exact ⟨_, Entries.mem_insert_self _ _ _⟩

set_option maxRecDepth 100000 in
theorem creates_then_read_and_list_witness :
    (emptyStorage.Get ("key-managers/" ++ "svc") = .ok none ∧
      (createAll demoCrypto "svc" emptyStorage
          [(testSeedHex, .ok []), ("", .ok [7, 7])]).1.all Outcome.isOk = true ∧
      emptyStorage.listErr "key-managers/" = none) ∧
    ∃ (addrs keys : List String),
      addrs.length = [(testSeedHex, (.ok [] : Except String Bytes)), ("", .ok [7, 7])].length ∧
      (createAll demoCrypto "svc" emptyStorage
          [(testSeedHex, .ok []), ("", .ok [7, 7])]).1.map addressOf = addrs.map some ∧
      readKeyManager
          (createAll demoCrypto "svc" emptyStorage [(testSeedHex, .ok []), ("", .ok [7, 7])]).2
          "svc" =
        .ok (some { Data := [("service_name", .string "svc"), ("addresses", .strings addrs)] }) ∧
      listKeyManagers
          (createAll demoCrypto "svc" emptyStorage [(testSeedHex, .ok []), ("", .ok [7, 7])]).2 =
        .ok (some (ListResponse keys)) ∧
      ('/' ∉ "svc".data → keys.count "svc" = 1) :=
  ⟨⟨by decide, by decide, rfl⟩,
    creates_then_read_and_list demoCrypto emptyStorage "svc" (testSeedHex, .ok [])
      [("", .ok [7, 7])] (by decide) (by decide) rfl⟩

/-! ## Deleting a record (C10) -/

/-- A successful deletion of a stored record, for any string `name`: the
record is gone, the handlers report it as not found, the other services are
untouched, and a name without `/` is no longer listed. -/
theorem delete_removes_stored_record (c : Crypto) (st : Storage)
    (name hash jettonWallet : String) (km : KeyManager) (resp : Option Response)
    (hget : st.Get ("key-managers/" ++ name) =
      .ok (some { Key := "key-managers/" ++ name, Value := .json km }))
    (hok : (deleteKeyManager st name).1 = .ok resp) :
    retrieveKeyManager (deleteKeyManager st name).2 name = .ok none ∧
    readKeyManager (deleteKeyManager st name).2 name = .error (.keyManagerNotFound name) ∧
    signHash c (deleteKeyManager st name).2 name hash = .error (.keyManagerNotFound name) ∧
    transferTon c (deleteKeyManager st name).2 name = .error (.keyManagerNotFound name) ∧
    transferJetton c (deleteKeyManager st name).2 name jettonWallet =
      .error (.keyManagerNotFound name) ∧
    (∀ other, other ≠ name →
      retrieveKeyManager (deleteKeyManager st name).2 other = retrieveKeyManager st other) ∧
    ('/' ∉ name.data → ∀ keys, (deleteKeyManager st name).2.List "key-managers/" = .ok keys →
      name ∉ keys) ∧
    ('/' ∉ name.data → ∀ r keys, listKeyManagers (deleteKeyManager st name).2 = .ok (some r) →
      r.get "keys" = some (.strings keys) → name ∉ keys) := by
  have hr := retrieveKeyManager_of_get st name km hget
  have hg := (retrieveKeyManager_some st name km hr).1
  have hform : deleteKeyManager st name =
      (.ok none, { st with entries := Entries.erase ("key-managers/" ++ name) st.entries }) := by
    unfold deleteKeyManager at hok ⊢
    simp only [hr] at hok ⊢
    cases hde : st.deleteErr ("key-managers/" ++ name) with
    | some msg => simp [Storage.Delete, hde] at hok
    | none => simp [Storage.Delete, hde]
  have hnone : retrieveKeyManager (deleteKeyManager st name).2 name = .ok none := by
    rw [hform, retrieveKeyManager_eq]
    simp only [hg, Entries.lookup_erase_self]
  have hnotin : '/' ∉ name.data → ∀ keys,
      (deleteKeyManager st name).2.List "key-managers/" = .ok keys → name ∉ keys := by
    intro hs keys hkeys hmem
    obtain ⟨v, hv⟩ := (mem_list_iff _ keys name hkeys hs).mp hmem
    rw [hform] at hv
    have := (List.mem_filter.mp hv).2
    simp at this
  refine ⟨hnone, ?_, ?_, ?_, ?_, ?_, hnotin, ?_⟩
  · simp only [readKeyManager, hnone]
  · simp only [signHash, hnone]
  · simp only [transferTon, hnone]
  · simp only [transferJetton, hnone]
  · intro other hne
    rw [hform]
    apply retrieve_other st _ other
    exact Entries.lookup_erase_of_ne _ _ _ (fun h => hne (path_injective _ _ h))
  · intro hs r keys hl hk
    unfold listKeyManagers at hl
    cases hL : (deleteKeyManager st name).2.List "key-managers/" with
    | error e => simp [hL] at hl
    | ok keys' =>
      simp only [hL, Outcome.ok.injEq, Option.some.injEq] at hl
      subst hl
      by_cases he : keys' = []
      · simp [ListResponse, he, Response.get] at hk
      · simp only [ListResponse, he, if_false, Response.get, List.find?, decide_True,
          Option.map_some', Option.some.injEq, Field.strings.injEq] at hk
        subst hk
        exact hnotin hs keys' hL

/-- A generic name holds no `/`. -/
theorem GenericNameRegex_no_slash (name : String)
    (h : framework.GenericNameRegex name = true) : '/' ∉ name.data := by
  unfold framework.GenericNameRegex at h
  cases hd : name.data with
  | nil => simp [hd] at h
  | cons c rest =>
    simp only [hd, Bool.and_eq_true] at h
    obtain ⟨⟨hc, hrest⟩, _⟩ := h
    intro hmem
    rcases List.mem_cons.mp hmem with hm | hm
    · rw [← hm] at hc
      exact absurd hc (by decide)
    · have := List.all_eq_true.mp hrest _ hm
      exact absurd this (by decide)

/-- C10: when the record of `name` is stored, `name` being the capture of the
route pattern `key-managers/<GenericNameRegex>`, a successful
`deleteKeyManager(name)` removes the record whole: afterwards
`retrieveKeyManager(name)` returns absent, `readKeyManager`, `signHash`,
`transferTon` and `transferJetton` on `name` fail with not-found, a successful
listing does not contain `name`, and what is stored for every other service is
as before. -/
theorem deleteKeyManager_removes_record (c : Crypto) (st : Storage)
    (name hash jettonWallet : String) (km : KeyManager) (resp : Option Response)
    (hroute : framework.GenericNameRegex name = true)
    (hget : st.Get ("key-managers/" ++ name) =
      .ok (some { Key := "key-managers/" ++ name, Value := .json km }))
    (hok : (deleteKeyManager st name).1 = .ok resp) :
    retrieveKeyManager (deleteKeyManager st name).2 name = .ok none ∧
    readKeyManager (deleteKeyManager st name).2 name = .error (.keyManagerNotFound name) ∧
    signHash c (deleteKeyManager st name).2 name hash = .error (.keyManagerNotFound name) ∧
    transferTon c (deleteKeyManager st name).2 name = .error (.keyManagerNotFound name) ∧
    transferJetton c (deleteKeyManager st name).2 name jettonWallet =
      .error (.keyManagerNotFound name) ∧
    (Error.keyManagerNotFound name).kind = .NotFoundError ∧
    (∀ keys, (deleteKeyManager st name).2.List "key-managers/" = .ok keys → name ∉ keys) ∧
    (∀ r keys, listKeyManagers (deleteKeyManager st name).2 = .ok (some r) →
      r.get "keys" = some (.strings keys) → name ∉ keys) ∧
    (∀ other, other ≠ name →
      retrieveKeyManager (deleteKeyManager st name).2 other = retrieveKeyManager st other) ∧
    (∀ p, p ≠ "key-managers/" ++ name →
      Entries.lookup p (deleteKeyManager st name).2.entries = Entries.lookup p st.entries) := by
  have hs := GenericNameRegex_no_slash name hroute
  obtain ⟨h1, h2, h3, h4, h5, h6, h7, h8⟩ :=
    delete_removes_stored_record c st name hash jettonWallet km resp hget hok
  refine ⟨h1, h2, h3, h4, h5, rfl, h7 hs, h8 hs, h6, ?_⟩
  intro p hp
  rcases deleteKeyManager_cases st name with h | ⟨_, _, _, h⟩
  · rw [h]
  · rw [h]
    exact Entries.lookup_erase_of_ne _ _ _ hp

set_option maxRecDepth 100000 in
theorem deleteKeyManager_removes_record_witness :
    (framework.GenericNameRegex "svc" = true
      ∧ storageAfterImport.Get ("key-managers/" ++ "svc") =
        .ok (some { Key := "key-managers/" ++ "svc", Value := .json ⟨"svc", [some testPair]⟩ })
      ∧ (deleteKeyManager storageAfterImport "svc").1 = .ok none) ∧
    retrieveKeyManager (deleteKeyManager storageAfterImport "svc").2 "svc" = .ok none ∧
    readKeyManager (deleteKeyManager storageAfterImport "svc").2 "svc" =
      .error (.keyManagerNotFound "svc") ∧
    (∀ keys, (deleteKeyManager storageAfterImport "svc").2.List "key-managers/" = .ok keys →
      "svc" ∉ keys) :=
  ⟨⟨by decide, by decide, by decide⟩,
    (deleteKeyManager_removes_record demoCrypto storageAfterImport "svc" zeroHashHex "w"
      ⟨"svc", [some testPair]⟩ none (by decide) (by decide) (by decide)).1,
    (deleteKeyManager_removes_record demoCrypto storageAfterImport "svc" zeroHashHex "w"
      ⟨"svc", [some testPair]⟩ none (by decide) (by decide) (by decide)).2.1,
    (deleteKeyManager_removes_record demoCrypto storageAfterImport "svc" zeroHashHex "w"
      ⟨"svc", [some testPair]⟩ none (by decide) (by decide) (by decide)).2.2.2.2.2.2.1⟩

/-! ## Storage failures (C11) -/

/-- A failing read is handed through by `createKeyManager`, `readKeyManager`
and `deleteKeyManager`, which leave the storage as it was. -/
theorem read_failure_propagates (c : Crypto) (st : Storage) (name pk msg : String)
    (entropy : Except String Bytes) (hname : name ≠ "")
    (hfail : st.getErr ("key-managers/" ++ name) = some msg) :
    createKeyManager c st name pk entropy = (.error (.storage msg), st) ∧
    readKeyManager st name = .error (.storage msg) ∧
    deleteKeyManager st name = (.error (.storage msg), st) := by
  have hr : retrieveKeyManager st name = .error (.storage msg) := by
    rw [retrieveKeyManager_eq]
    simp only [hfail]
  refine ⟨?_, ?_, ?_⟩
  · simp only [createKeyManager, hname, if_false, hr]
  · simp only [readKeyManager, hr]
  · simp only [deleteKeyManager, hr]

/-- A failing read is reported by `signHash`, `transferTon` and
`transferJetton` as "key-manager not found". -/
theorem read_failure_reported_not_found (c : Crypto) (st : Storage)
    (name hash jettonWallet msg : String)
    (hfail : st.getErr ("key-managers/" ++ name) = some msg) :
    signHash c st name hash = .error (.keyManagerNotFound name) ∧
    transferTon c st name = .error (.keyManagerNotFound name) ∧
    transferJetton c st name jettonWallet = .error (.keyManagerNotFound name) := by
  have hr : retrieveKeyManager st name = .error (.storage msg) := by
    rw [retrieveKeyManager_eq]
    simp only [hfail]
  refine ⟨?_, ?_, ?_⟩
  · simp only [signHash, hr]
  · simp only [transferTon, hr]
  · simp only [transferJetton, hr]

/-- A failing write, delete or list is handed through by `createKeyManager`,
`deleteKeyManager` and `listKeyManagers`. -/
theorem write_failure_propagates (st : Storage) (msg : String) :
    (st.listErr "key-managers/" = some msg → listKeyManagers st = .error (.storage msg)) ∧
    (∀ name km, retrieveKeyManager st name = .ok (some km) →
      st.deleteErr ("key-managers/" ++ name) = some msg →
      deleteKeyManager st name = (.error (.storage msg), st)) ∧
    (∀ (c : Crypto) (svc pk : String) (entropy : Except String Bytes),
      st.putErr ("key-managers/" ++ svc) = some msg →
      (createKeyManager c st svc pk entropy).2 = st ∧
        ∀ resp, (createKeyManager c st svc pk entropy).1 ≠ .ok resp) := by
  refine ⟨?_, ?_, ?_⟩
  · intro h
    simp only [listKeyManagers, Storage.List, h]
  · intro name km hr hd
    simp only [deleteKeyManager, hr, Storage.Delete, hd]
  · intro c svc pk entropy hp
    rcases createKeyManager_cases c st svc pk entropy with h | ⟨_, _, _, _, _, _, _, hput⟩
    · exact h
    · rw [hp] at hput
      cases hput

/-- C11, the code at the failing input: on a storage that holds the record of
`svc` and whose reads fail with "sealed", `signHash`, `transferTon` and
`transferJetton` answer "key-manager not found", a `NotFoundError`, not the
storage error; `readKeyManager`, `deleteKeyManager` and `createKeyManager`
hand the storage error through, as `listKeyManagers`, `createKeyManager` and
`deleteKeyManager` do for a failing list, write and delete. -/
theorem read_failure_on_sealed_storage :
    Entries.lookup "key-managers/svc" sealedStorage.entries =
        some (.json ⟨"svc", [some testPair]⟩)
    ∧ sealedStorage.Get "key-managers/svc" = .error (.storage "sealed")
    ∧ signHash demoCrypto sealedStorage "svc" zeroHashHex = .error (.keyManagerNotFound "svc")
    ∧ transferTon demoCrypto sealedStorage "svc" = .error (.keyManagerNotFound "svc")
    ∧ transferJetton demoCrypto sealedStorage "svc" "w" = .error (.keyManagerNotFound "svc")
    ∧ (Error.keyManagerNotFound "svc").kind = .NotFoundError
    ∧ (Error.storage "sealed").kind = .StorageError
    ∧ readKeyManager sealedStorage "svc" = .error (.storage "sealed")
    ∧ (deleteKeyManager sealedStorage "svc").1 = .error (.storage "sealed")
    ∧ (createKeyManager demoCrypto sealedStorage "svc" "" (.ok [])).1 = .error (.storage "sealed")
    ∧ listKeyManagers failingStorage = .error (.storage "list failed")
    ∧ (createKeyManager demoCrypto { storageAfterImport with putErr := fun _ => some "full" }
        "svc" "" (.ok [])).1 = .error (.storage "full")
    ∧ (deleteKeyManager { storageAfterImport with deleteErr := fun _ => some "locked" }
        "svc").1 = .error (.storage "locked") := by
  decide

/-! ## The listing and the stored services (C12) -/

theorem ReachableWith.keysNamed (c : Crypto) (P : String → Prop) (st : Storage)
    (h : ReachableWith c P st) : KeysNamed P st := by
  induction h with
  | empty st h =>
    intro e he
    rw [h] at he
    cases he
  | create st svc pk entropy _ hname hok ih =>
    rcases createKeyManager_cases c st svc pk entropy with hc | ⟨r, seed, addr, hsvc, hr, hseed, haddr, hput⟩
    · rw [hc.1]; exact ih
    · rw [createKeyManager_ok c st svc pk entropy r seed addr hsvc hr hseed haddr hput]
      intro e he
      rcases Entries.mem_insert _ _ _ _ he with he | he
      · exact ⟨svc, hname, by rw [he]⟩
      · exact ih e he
  | delete st name _ _ _ ih =>
    rcases deleteKeyManager_cases st name with hd | ⟨_, _, _, hd⟩
    · rw [hd]; exact ih
    · rw [hd]
      intro e he
      exact ih e (Entries.mem_erase _ _ _ he)
  | faults st g p d l _ ih => exact ih

/-- C12, counterexample: after one successful `createKeyManager` for the
service `a/b` on the empty storage, the listing is `a/`: it names `a/`, which
has no stored record, and omits `a/b`, which has one. -/
theorem list_names_folder_not_service :
    (createKeyManager demoCrypto emptyStorage "a/b" testSeedHex (.ok [])).1.isOk = true
    ∧ listKeyManagers storageAfterSlashImport = .ok (some { Data := [("keys", .strings ["a/"])] })
    ∧ retrieveKeyManager storageAfterSlashImport "a/" = .ok none
    ∧ retrieveKeyManager storageAfterSlashImport "a/b" = .ok (some ⟨"a/b", [some testPair]⟩) := by
  decide

/-- C12 (amended): in every storage state reachable from the empty storage by
successful `createKeyManager` and `deleteKeyManager` calls whose service names
contain no `/`, a successful listing returns exactly the service names that
have a stored record, each exactly once. -/
theorem list_exactly_stored_services (c : Crypto) (st : Storage) (keys : List String)
    (hreach : ReachableWith c (fun s => '/' ∉ s.data) st)
    (hlist : st.List "key-managers/" = .ok keys) :
    listKeyManagers st = .ok (some (ListResponse keys)) ∧
    (∀ svc, svc ∈ keys ↔ ∃ v, Entries.lookup ("key-managers/" ++ svc) st.entries = some v) ∧
    keys.Nodup ∧
    (∀ svc ∈ keys, keys.count svc = 1) := by
  have hnamed := ReachableWith.keysNamed c _ st hreach
  have hnodup : keys.Nodup := by
    rw [list_ok st keys hlist]
    exact List.nodup_dedup _
  refine ⟨by simp only [listKeyManagers, hlist], ?_, hnodup, ?_⟩
  · intro svc
    constructor
    · intro hmem
      rw [list_ok st keys hlist, List.mem_dedup, List.mem_filterMap] at hmem
      obtain ⟨⟨k, v⟩, he, hc⟩ := hmem
      obtain ⟨svc', hs', hk⟩ := hnamed _ he
      simp only at hk hc
      rw [hk, String.data_append, Entries.childName_append] at hc
      simp only [hs', if_false, Option.map_some', Option.some.injEq] at hc
      have hsvc : svc' = svc := hc
      subst hsvc
      cases hl : Entries.lookup ("key-managers/" ++ svc') st.entries with
      | some w => exact ⟨w, rfl⟩
      | none =>
        exact absurd hk ((Entries.lookup_eq_none_iff _ _).mp hl _ he)
    · rintro ⟨v, hv⟩
      have he := Entries.lookup_mem _ _ _ hv
      obtain ⟨svc', hs', hk⟩ := hnamed _ he
      have hsvc : svc = svc' := path_injective _ _ hk
      subst hsvc
      exact (mem_list_iff st keys svc hlist hs').mpr ⟨v, he⟩
  · intro svc hmem
    exact List.count_eq_one_of_mem hnodup hmem

set_option maxRecDepth 100000 in
theorem list_exactly_stored_services_witness :
    (ReachableWith demoCrypto (fun s => '/' ∉ s.data)
        (createKeyManager demoCrypto emptyStorage "svc" testSeedHex (.ok [])).2 ∧
      (createKeyManager demoCrypto emptyStorage "svc" testSeedHex (.ok [])).2.List
        "key-managers/" = .ok ["svc"]) ∧
    listKeyManagers (createKeyManager demoCrypto emptyStorage "svc" testSeedHex (.ok [])).2 =
      .ok (some (ListResponse ["svc"])) ∧
    (∀ svc, svc ∈ ["svc"] ↔ ∃ v, Entries.lookup ("key-managers/" ++ svc)
      (createKeyManager demoCrypto emptyStorage "svc" testSeedHex (.ok [])).2.entries = some v) :=
  ⟨⟨ReachableWith.create emptyStorage "svc" testSeedHex (.ok []) (ReachableWith.empty _ rfl)
      (by decide) (by decide), by decide⟩,
    (list_exactly_stored_services demoCrypto
      (createKeyManager demoCrypto emptyStorage "svc" testSeedHex (.ok [])).2 ["svc"]
      (ReachableWith.create emptyStorage "svc" testSeedHex (.ok []) (ReachableWith.empty _ rfl)
        (by decide) (by decide)) (by decide)).1,
    (list_exactly_stored_services demoCrypto
      (createKeyManager demoCrypto emptyStorage "svc" testSeedHex (.ok [])).2 ["svc"]
      (ReachableWith.create emptyStorage "svc" testSeedHex (.ok []) (ReachableWith.empty _ rfl)
        (by decide) (by decide)) (by decide)).2.1⟩

end TonSigner
